import Mathlib

/-!
Verification development for the drift-logger CSV persistence layer.

The TypeScript sources embedded here are `src/lib/parsers/csvParser.ts`
(class CsvParser), `src/lib/types/csvSchema.ts` (row shapes and validation
rules) and `src/lib/dataStore/duckdbStore.ts` (class DuckDBStore).
Strings are modelled as Lean `String` (a wrapper around `List Char`), and
the JavaScript string primitives used by the sources (`String.prototype.replace`
with a global single-character or two-character literal pattern,
`String.prototype.split`, `Array.prototype.join`, `String.prototype.trim`)
are modelled by executable char-list functions below.
-/

namespace DriftLogger

/-- Models `value.replace(/a/g, r)` for a single literal character `a`:
every occurrence of `a` is replaced by the character list `r`. -/
def replaceChar (a : Char) (r : List Char) : List Char → List Char
  | [] => []
  | c :: t => (if c = a then r else [c]) ++ replaceChar a r t

/-- Models `value.replace(/ab/g, r)` for a two-character literal pattern:
the scan is left to right and non-overlapping, exactly as for a JavaScript
global regex of two literal characters. -/
def replacePair (a b : Char) (r : List Char) : List Char → List Char
  | [] => []
  | [c] => [c]
  | c :: d :: t =>
    if c = a ∧ d = b then r ++ replacePair a b r t
    else c :: replacePair a b r (d :: t)

/-- True when the two-character pattern `ab` occurs somewhere in the list. -/
def hasPair (a b : Char) : List Char → Bool
  | c :: d :: t => (c = a ∧ d = b : Bool) || hasPair a b (d :: t)
  | _ => false

/-- Models `content.split(sep)` for a single-character separator. -/
def splitOnChar (sep : Char) : List Char → List (List Char)
  | [] => [[]]
  | c :: t =>
    if c = sep then [] :: splitOnChar sep t
    else
      match splitOnChar sep t with
      | [] => [[c]]
      | f :: r => (c :: f) :: r

/-- Models `array.join(sep)` from JavaScript. -/
def joinSep (sep : String) : List String → String
  | [] => ""
  | [s] => s
  | s :: t => s ++ sep ++ joinSep sep t

/-- Models `value.trim()`: strip whitespace from both ends. -/
def trimChars (l : List Char) : List Char :=
  ((l.dropWhile Char.isWhitespace).reverse.dropWhile Char.isWhitespace).reverse

/-- String wrapper for `trimChars`. -/
def trimStr (s : String) : String := ⟨trimChars s.data⟩

/-- String wrapper for `splitOnChar`. -/
def splitStr (sep : Char) (s : String) : List String :=
  (splitOnChar sep s.data).map String.mk

-- === CsvParser.escapeCsvValue / unescapeCsvValue ===
-- Source: `value.replace(/"/g, '""').replace(/\n/g, "\\n").replace(/\r/g, "\\r")`
-- and `value.replace(/""/g, '"').replace(/\\n/g, "\n").replace(/\\r/g, "\r")`.

/-- First pass of `escapeCsvValue`: double every quote character. -/
def escQ : List Char → List Char := replaceChar '"' ['"', '"']

/-- Second pass of `escapeCsvValue`: a newline becomes the literal pair backslash-n. -/
def escN : List Char → List Char := replaceChar '\n' ['\\', 'n']

/-- Third pass of `escapeCsvValue`: a carriage return becomes the literal pair backslash-r. -/
def escR : List Char → List Char := replaceChar '\r' ['\\', 'r']

/-- First pass of `unescapeCsvValue`: collapse doubled quotes. -/
def unqQ : List Char → List Char := replacePair '"' '"' ['"']

/-- Second pass of `unescapeCsvValue`: the literal pair backslash-n becomes a newline. -/
def unqN : List Char → List Char := replacePair '\\' 'n' ['\n']

/-- Third pass of `unescapeCsvValue`: the literal pair backslash-r becomes a carriage return. -/
def unqR : List Char → List Char := replacePair '\\' 'r' ['\r']

/-- CsvParser.escapeCsvValue from csvParser.ts. -/
def escapeCsvValue (v : String) : String := ⟨escR (escN (escQ v.data))⟩

/-- CsvParser.unescapeCsvValue from csvParser.ts. -/
def unescapeCsvValue (v : String) : String := ⟨unqR (unqN (unqQ v.data))⟩

-- === Step equations and basic lemmas for the replace primitives ===

theorem replaceChar_cons {a : Char} {r : List Char} {c : Char} {t : List Char} :
    replaceChar a r (c :: t) = (if c = a then r else [c]) ++ replaceChar a r t := rfl

theorem replaceChar_cons_self {a : Char} {r t : List Char} :
    replaceChar a r (a :: t) = r ++ replaceChar a r t := by
  simp [replaceChar_cons]

theorem replaceChar_cons_ne {a : Char} {r : List Char} {c : Char} {t : List Char} (h : c ≠ a) :
    replaceChar a r (c :: t) = c :: replaceChar a r t := by
  simp [replaceChar_cons, h]

theorem replacePair_cons₂ {a b : Char} {r : List Char} {c d : Char} {t : List Char} :
    replacePair a b r (c :: d :: t) =
      if c = a ∧ d = b then r ++ replacePair a b r t
      else c :: replacePair a b r (d :: t) := rfl

theorem replacePair_cons₂_pos {a b : Char} {r t : List Char} :
    replacePair a b r (a :: b :: t) = r ++ replacePair a b r t := by
  simp [replacePair_cons₂]

theorem replacePair_cons₂_neg {a b : Char} {r : List Char} {c d : Char} {t : List Char}
    (h : ¬ (c = a ∧ d = b)) :
    replacePair a b r (c :: d :: t) = c :: replacePair a b r (d :: t) := by
  simp only [replacePair_cons₂, if_neg h]

theorem replacePair_cons_of_ne {a b : Char} {r : List Char} {c : Char} {t : List Char}
    (h : c ≠ a) :
    replacePair a b r (c :: t) = c :: replacePair a b r t := by
  cases t with
  | nil => rfl
  | cons d t => exact replacePair_cons₂_neg (fun hm => h hm.1)

theorem replacePair_eq_self {a b : Char} {r : List Char} :
    ∀ {l : List Char}, a ∉ l → replacePair a b r l = l
  | [], _ => rfl
  | c :: t, h => by
    have hc : c ≠ a := fun hc => h (hc ▸ List.mem_cons_self c t)
    rw [replacePair_cons_of_ne hc, replacePair_eq_self (fun ht => h (List.mem_cons_of_mem c ht))]

theorem replaceChar_eq_self {a : Char} {r : List Char} :
    ∀ {l : List Char}, a ∉ l → replaceChar a r l = l
  | [], _ => rfl
  | c :: t, h => by
    have hc : c ≠ a := fun hc => h (hc ▸ List.mem_cons_self c t)
    rw [replaceChar_cons_ne hc, replaceChar_eq_self (fun ht => h (List.mem_cons_of_mem c ht))]

theorem mem_replaceChar {a : Char} {r : List Char} {c : Char} :
    ∀ {l : List Char}, c ∈ replaceChar a r l → c ∈ l ∨ c ∈ r := by
  intro l
  induction l with
  | nil => intro h; exact absurd h (by simp [replaceChar])
  | cons x t ih =>
    intro h
    by_cases hx : x = a
    · subst hx
      rw [replaceChar_cons_self] at h
      rcases List.mem_append.1 h with h1 | h2
      · exact .inr h1
      · rcases ih h2 with h3 | h3
        · exact .inl (List.mem_cons_of_mem _ h3)
        · exact .inr h3
    · rw [replaceChar_cons_ne hx] at h
      rcases List.mem_cons.1 h with h1 | h2
      · exact .inl (h1 ▸ List.mem_cons_self _ _)
      · rcases ih h2 with h3 | h3
        · exact .inl (List.mem_cons_of_mem _ h3)
        · exact .inr h3

theorem not_mem_replaceChar_self {a : Char} {r : List Char} (hr : a ∉ r) :
    ∀ {l : List Char}, a ∉ replaceChar a r l := by
  intro l
  induction l with
  | nil => simp [replaceChar]
  | cons x t ih =>
    by_cases hx : x = a
    · subst hx
      rw [replaceChar_cons_self]
      intro h
      rcases List.mem_append.1 h with h1 | h2
      · exact hr h1
      · exact ih h2
    · rw [replaceChar_cons_ne hx]
      intro h
      rcases List.mem_cons.1 h with h1 | h2
      · exact hx h1.symm
      · exact ih h2

theorem mem_replacePair {a b : Char} {r : List Char} {c : Char} :
    ∀ (l : List Char), c ∈ replacePair a b r l → c ∈ l ∨ c ∈ r
  | [], h => .inl h
  | [_], h => .inl h
  | x :: d :: t, h => by
    by_cases hm : x = a ∧ d = b
    · rw [replacePair_cons₂, if_pos hm] at h
      rcases List.mem_append.1 h with h1 | h2
      · exact .inr h1
      · rcases mem_replacePair t h2 with h3 | h3
        · exact .inl (by simp [h3])
        · exact .inr h3
    · rw [replacePair_cons₂_neg hm] at h
      rcases List.mem_cons.1 h with h1 | h2
      · exact .inl (by simp [h1])
      · rcases mem_replacePair (d :: t) h2 with h3 | h3
        · exact .inl (by simp only [List.mem_cons] at h3 ⊢; tauto)
        · exact .inr h3
termination_by l => l.length

theorem mem_replacePair_of_ne {a b : Char} {r : List Char} {c : Char}
    (ha : c ≠ a) (hb : c ≠ b) :
    ∀ (l : List Char), c ∈ l → c ∈ replacePair a b r l
  | [], h => absurd h (by simp)
  | [x], h => by rwa [show replacePair a b r [x] = [x] from rfl]
  | x :: d :: t, h => by
    by_cases hm : x = a ∧ d = b
    · rw [replacePair_cons₂, if_pos hm]
      have hct : c ∈ t := by
        rcases List.mem_cons.1 h with h1 | h2
        · exact absurd (h1.trans hm.1) ha
        · rcases List.mem_cons.1 h2 with h3 | h4
          · exact absurd (h3.trans hm.2) hb
          · exact h4
      exact List.mem_append.2 (.inr (mem_replacePair_of_ne ha hb t hct))
    · rw [replacePair_cons₂_neg hm]
      rcases List.mem_cons.1 h with h1 | h2
      · exact h1 ▸ List.mem_cons_self _ _
      · exact List.mem_cons_of_mem _ (mem_replacePair_of_ne ha hb (d :: t) h2)
termination_by l => l.length

theorem replacePair_length_le {a b : Char} {r : List Char} (hr : r.length ≤ 2) :
    ∀ (l : List Char), (replacePair a b r l).length ≤ l.length
  | [] => le_refl _
  | [x] => le_refl _
  | x :: d :: t => by
    by_cases hm : x = a ∧ d = b
    · rw [replacePair_cons₂, if_pos hm]
      have := replacePair_length_le (a := a) (b := b) hr t
      simp only [List.length_append, List.length_cons]
      omega
    · rw [replacePair_cons₂_neg hm]
      have := replacePair_length_le (a := a) (b := b) hr (d :: t)
      simp only [List.length_cons] at this ⊢
      omega
termination_by l => l.length

theorem hasPair_cons {a b x : Char} {t : List Char} (h : hasPair a b t = true) :
    hasPair a b (x :: t) = true := by
  cases t with
  | nil => simp [hasPair] at h
  | cons d t' => simp only [hasPair, Bool.or_eq_true] at h ⊢; exact .inr h

theorem hasPair_tail {a b c : Char} {t : List Char} (h : hasPair a b (c :: t) = false) :
    hasPair a b t = false := by
  cases t with
  | nil => rfl
  | cons d t' => simp only [hasPair, Bool.or_eq_false_iff] at h; exact h.2

theorem hasPair_append_right {a b : Char} {l₂ : List Char} (h : hasPair a b l₂ = true) :
    ∀ (l₁ : List Char), hasPair a b (l₁ ++ l₂) = true
  | [] => h
  | x :: t => by
    rw [List.cons_append]
    exact hasPair_cons (hasPair_append_right h t)

theorem replacePair_length_lt {a b : Char} {r : List Char} (hr : r.length ≤ 1) :
    ∀ (l : List Char), hasPair a b l = true → (replacePair a b r l).length < l.length
  | [], h => by simp [hasPair] at h
  | [x], h => by simp [hasPair] at h
  | x :: d :: t, h => by
    by_cases hm : x = a ∧ d = b
    · rw [replacePair_cons₂, if_pos hm]
      have := replacePair_length_le (r := r) (a := a) (b := b) (by omega) t
      simp only [List.length_append, List.length_cons]
      omega
    · rw [replacePair_cons₂_neg hm]
      have hp : hasPair a b (d :: t) = true := by
        simp only [hasPair, Bool.or_eq_true] at h
        rcases h with h1 | h2
        · exact absurd (by exact_mod_cast of_decide_eq_true h1) hm
        · exact h2
      have := replacePair_length_lt hr (d :: t) hp
      simp only [List.length_cons] at this ⊢
      omega
termination_by l => l.length

theorem hasPair_replacePair_mem {a b : Char} {r : List Char} {c : Char} (hc : c ∈ r) :
    ∀ (l : List Char), hasPair a b l = true → c ∈ replacePair a b r l
  | [], h => by simp [hasPair] at h
  | [x], h => by simp [hasPair] at h
  | x :: d :: t, h => by
    by_cases hm : x = a ∧ d = b
    · rw [replacePair_cons₂, if_pos hm]
      exact List.mem_append.2 (.inl hc)
    · rw [replacePair_cons₂_neg hm]
      have hp : hasPair a b (d :: t) = true := by
        simp only [hasPair, Bool.or_eq_true] at h
        rcases h with h1 | h2
        · exact absurd (by exact_mod_cast of_decide_eq_true h1) hm
        · exact h2
      exact List.mem_cons_of_mem _ (hasPair_replacePair_mem hc (d :: t) hp)
termination_by l => l.length

theorem hasPair_replacePair_preserved {a b b' : Char} {r : List Char}
    (hab : b ≠ a) (hbb : b' ≠ b) (hba : b' ≠ a) :
    ∀ (l : List Char), hasPair a b' l = true → hasPair a b' (replacePair a b r l) = true
  | [], h => by simp [hasPair] at h
  | [x], h => by simp [hasPair] at h
  | x :: d :: t, h => by
    by_cases hm : x = a ∧ d = b
    · rw [replacePair_cons₂, if_pos hm]
      have hp : hasPair a b' t = true := by
        simp only [hasPair, Bool.or_eq_true] at h
        rcases h with h1 | h2
        · have h1' := of_decide_eq_true h1
          exact absurd (h1'.2.symm.trans hm.2) hbb
        · cases t with
          | nil => simp [hasPair] at h2
          | cons e t' =>
            simp only [hasPair, Bool.or_eq_true] at h2
            rcases h2 with h3 | h4
            · have h3' := of_decide_eq_true h3
              exact absurd (hm.2.symm.trans h3'.1) hab
            · exact h4
      exact hasPair_append_right (hasPair_replacePair_preserved hab hbb hba t hp) r
    · rw [replacePair_cons₂_neg hm]
      simp only [hasPair, Bool.or_eq_true] at h
      rcases h with h1 | h2
      · have hx := of_decide_eq_true h1
        have hda : d ≠ a := fun hda => hba (hx.2.symm.trans hda)
        rw [replacePair_cons_of_ne hda]
        simp [hasPair, hx.1, hx.2]
      · exact hasPair_cons (hasPair_replacePair_preserved hab hbb hba (d :: t) h2)
termination_by l => l.length

-- === Step equations for the six escape and unescape passes ===

theorem escQ_cons_q (t : List Char) : escQ ('"' :: t) = '"' :: '"' :: escQ t := by
  simp [escQ, replaceChar_cons_self]

theorem escQ_cons_ne {c : Char} (t : List Char) (h : c ≠ '"') :
    escQ (c :: t) = c :: escQ t := replaceChar_cons_ne h

theorem escN_cons_nl (t : List Char) : escN ('\n' :: t) = '\\' :: 'n' :: escN t := by
  simp [escN, replaceChar_cons_self]

theorem escN_cons_ne {c : Char} (t : List Char) (h : c ≠ '\n') :
    escN (c :: t) = c :: escN t := replaceChar_cons_ne h

theorem escR_cons_cr (t : List Char) : escR ('\r' :: t) = '\\' :: 'r' :: escR t := by
  simp [escR, replaceChar_cons_self]

theorem escR_cons_ne {c : Char} (t : List Char) (h : c ≠ '\r') :
    escR (c :: t) = c :: escR t := replaceChar_cons_ne h

theorem unqQ_cons₂_qq (t : List Char) : unqQ ('"' :: '"' :: t) = '"' :: unqQ t := by
  simp [unqQ, replacePair_cons₂_pos]

theorem unqQ_cons_ne {c : Char} (t : List Char) (h : c ≠ '"') :
    unqQ (c :: t) = c :: unqQ t := replacePair_cons_of_ne h

theorem unqN_cons₂_bsn (t : List Char) : unqN ('\\' :: 'n' :: t) = '\n' :: unqN t := by
  simp [unqN, replacePair_cons₂_pos]

theorem unqN_cons_ne {c : Char} (t : List Char) (h : c ≠ '\\') :
    unqN (c :: t) = c :: unqN t := replacePair_cons_of_ne h

theorem unqN_cons₂_neg {c d : Char} (t : List Char) (h : ¬ (c = '\\' ∧ d = 'n')) :
    unqN (c :: d :: t) = c :: unqN (d :: t) := replacePair_cons₂_neg h

theorem unqR_cons₂_bsr (t : List Char) : unqR ('\\' :: 'r' :: t) = '\r' :: unqR t := by
  simp [unqR, replacePair_cons₂_pos]

theorem unqR_cons_ne {c : Char} (t : List Char) (h : c ≠ '\\') :
    unqR (c :: t) = c :: unqR t := replacePair_cons_of_ne h

theorem unqR_cons₂_neg {c d : Char} (t : List Char) (h : ¬ (c = '\\' ∧ d = 'r')) :
    unqR (c :: d :: t) = c :: unqR (d :: t) := replacePair_cons₂_neg h

/-- After a backslash, the second pass of `unescapeCsvValue` can only emit a
backslash or a newline first, never an `r`. -/
theorem unqN_head_ne_r {d : Char} (t : List Char) (hd : d ≠ 'r') :
    ∀ Z, unqN (d :: t) ≠ 'r' :: Z := by
  intro Z
  cases t with
  | nil =>
    intro hc
    injection hc with h₁
    exact hd h₁
  | cons e t' =>
    by_cases hm : d = '\\' ∧ e = 'n'
    · rw [hm.1, hm.2, unqN_cons₂_bsn]
      intro hc
      injection hc with h₁
      exact absurd h₁ (by decide)
    · rw [unqN_cons₂_neg _ hm]
      intro hc
      injection hc with h₁
      exact hd h₁

theorem unqR_cons_bs {W : List Char} (h : ∀ Z, W ≠ 'r' :: Z) :
    unqR ('\\' :: W) = '\\' :: unqR W := by
  cases W with
  | nil => rfl
  | cons w W' =>
    refine unqR_cons₂_neg _ (fun hc => h W' ?_)
    rw [hc.2]

-- === Composition lemmas for escape and unescape ===

/-- Collapsing doubled quotes undoes quote doubling, on any input. -/
theorem unqQ_escQ : ∀ (l : List Char), unqQ (escQ l) = l
  | [] => rfl
  | c :: t => by
    by_cases hc : c = '"'
    · rw [hc, escQ_cons_q, unqQ_cons₂_qq, unqQ_escQ t]
    · rw [escQ_cons_ne t hc, unqQ_cons_ne _ hc, unqQ_escQ t]

/-- The quote-collapsing pass of `unescapeCsvValue` exactly undoes the
quote-doubling pass of `escapeCsvValue`, even through the newline and
carriage-return passes, on any input. -/
theorem unqQ_escRNQ : ∀ (l : List Char), unqQ (escR (escN (escQ l))) = escR (escN l)
  | [] => rfl
  | c :: t => by
    by_cases h1 : c = '"'
    · rw [h1, escQ_cons_q, escN_cons_ne _ (by decide), escN_cons_ne _ (by decide),
        escR_cons_ne _ (by decide), escR_cons_ne _ (by decide), unqQ_cons₂_qq,
        unqQ_escRNQ t, escN_cons_ne _ (by decide), escR_cons_ne _ (by decide)]
    · by_cases h2 : c = '\n'
      · rw [h2, escQ_cons_ne _ (by decide), escN_cons_nl, escR_cons_ne _ (by decide),
          escR_cons_ne _ (by decide), unqQ_cons_ne _ (by decide), unqQ_cons_ne _ (by decide),
          unqQ_escRNQ t, escN_cons_nl, escR_cons_ne _ (by decide), escR_cons_ne _ (by decide)]
      · by_cases h3 : c = '\r'
        · rw [h3, escQ_cons_ne _ (by decide), escN_cons_ne _ (by decide), escR_cons_cr,
            unqQ_cons_ne _ (by decide), unqQ_cons_ne _ (by decide), unqQ_escRNQ t,
            escN_cons_ne _ (by decide), escR_cons_cr]
        · rw [escQ_cons_ne _ h1, escN_cons_ne _ h2, escR_cons_ne _ h3,
            unqQ_cons_ne _ h1, unqQ_escRNQ t, escN_cons_ne _ h2, escR_cons_ne _ h3]

mutual

/-- Unescaping undoes escaping (newline and carriage-return passes) on any
text that contains no literal backslash-n and no literal backslash-r pair. -/
theorem unescEsc : ∀ (l : List Char), hasPair '\\' 'n' l = false →
    hasPair '\\' 'r' l = false → unqR (unqN (escR (escN l))) = l
  | [], _, _ => rfl
  | c :: t, hn, hr => by
    by_cases h1 : c = '\n'
    · rw [h1, escN_cons_nl, escR_cons_ne _ (by decide), escR_cons_ne _ (by decide),
        unqN_cons₂_bsn, unqR_cons_ne _ (by decide),
        unescEsc t (hasPair_tail (h1 ▸ hn)) (hasPair_tail (h1 ▸ hr))]
    · by_cases h2 : c = '\r'
      · rw [h2, escN_cons_ne _ (by decide), escR_cons_cr,
          unqN_cons₂_neg _ (by decide), unqN_cons_ne _ (by decide), unqR_cons₂_bsr,
          unescEsc t (hasPair_tail (h2 ▸ hn)) (hasPair_tail (h2 ▸ hr))]
      · by_cases h3 : c = '\\'
        · rw [h3, escN_cons_ne _ (by decide), escR_cons_ne _ (by decide)]
          exact unescEscBs t (h3 ▸ hn) (h3 ▸ hr)
        · rw [escN_cons_ne _ h1, escR_cons_ne _ h2,
            unqN_cons_ne _ h3, unqR_cons_ne _ h3,
            unescEsc t (hasPair_tail hn) (hasPair_tail hr)]
termination_by l _ _ => 2 * l.length
decreasing_by all_goals (simp only [List.length_cons]; omega)

/-- Variant of `unescEsc` with a pending literal backslash in front of the
escaped text. -/
theorem unescEscBs : ∀ (t : List Char), hasPair '\\' 'n' ('\\' :: t) = false →
    hasPair '\\' 'r' ('\\' :: t) = false →
    unqR (unqN ('\\' :: escR (escN t))) = '\\' :: t
  | [], _, _ => rfl
  | d :: t₂, hn, hr => by
    by_cases hd1 : d = 'n'
    · exact absurd hn (by rw [hd1]; simp [hasPair])
    · by_cases hd2 : d = 'r'
      · exact absurd hr (by rw [hd2]; simp [hasPair])
      · by_cases hd3 : d = '\n'
        · rw [hd3, escN_cons_nl, escR_cons_ne _ (by decide), escR_cons_ne _ (by decide),
            unqN_cons₂_neg _ (by decide), unqN_cons₂_bsn,
            unqR_cons₂_neg _ (by decide), unqR_cons_ne _ (by decide),
            unescEsc t₂ (hasPair_tail (hasPair_tail (hd3 ▸ hn)))
              (hasPair_tail (hasPair_tail (hd3 ▸ hr)))]
        · by_cases hd4 : d = '\r'
          · rw [hd4, escN_cons_ne _ (by decide), escR_cons_cr,
              unqN_cons₂_neg _ (by decide), unqN_cons₂_neg _ (by decide),
              unqN_cons_ne _ (by decide), unqR_cons₂_neg _ (by decide), unqR_cons₂_bsr,
              unescEsc t₂ (hasPair_tail (hasPair_tail (hd4 ▸ hn)))
                (hasPair_tail (hasPair_tail (hd4 ▸ hr)))]
          · by_cases hd5 : d = '\\'
            · rw [hd5, escN_cons_ne _ (by decide), escR_cons_ne _ (by decide),
                unqN_cons₂_neg _ (by decide),
                unqR_cons_bs (fun Z => unqN_head_ne_r _ (by decide) Z),
                unescEscBs t₂ (hasPair_tail (hd5 ▸ hn)) (hasPair_tail (hd5 ▸ hr))]
            · rw [escN_cons_ne _ hd3, escR_cons_ne _ hd4,
                unqN_cons₂_neg _ (fun hm => hd1 hm.2),
                unqN_cons_ne _ hd5,
                unqR_cons₂_neg _ (fun hm => hd2 hm.2),
                unqR_cons_ne _ hd5,
                unescEsc t₂ (hasPair_tail (hasPair_tail hn)) (hasPair_tail (hasPair_tail hr))]
termination_by t _ _ => 2 * t.length + 1
decreasing_by all_goals (simp only [List.length_cons]; omega)

end

/-- Escaping undoes unescaping on any text that contains no actual newline
and no actual carriage-return character. -/
theorem escUnesc : ∀ (l : List Char), '\n' ∉ l → '\r' ∉ l →
    escR (escN (unqR (unqN l))) = l
  | [], _, _ => rfl
  | [c], hn, hr => by
    have h2 : c ≠ '\n' := fun h => hn (h ▸ List.mem_cons_self _ _)
    have h3 : c ≠ '\r' := fun h => hr (h ▸ List.mem_cons_self _ _)
    rw [show unqN [c] = [c] from rfl, show unqR [c] = [c] from rfl,
      escN_cons_ne _ h2, show escN ([] : List Char) = [] from rfl,
      escR_cons_ne _ h3, show escR ([] : List Char) = [] from rfl]
  | c :: d :: t₂, hn, hr => by
    have hdn : '\n' ∉ (d :: t₂) := fun h => hn (List.mem_cons_of_mem _ h)
    have hdr : '\r' ∉ (d :: t₂) := fun h => hr (List.mem_cons_of_mem _ h)
    have hnt₂ : '\n' ∉ t₂ := fun h => hdn (List.mem_cons_of_mem _ h)
    have hrt₂ : '\r' ∉ t₂ := fun h => hdr (List.mem_cons_of_mem _ h)
    by_cases h1 : c = '\\'
    · by_cases hd1 : d = 'n'
      · rw [h1, hd1, unqN_cons₂_bsn, unqR_cons_ne _ (by decide), escN_cons_nl,
          escR_cons_ne _ (by decide), escR_cons_ne _ (by decide),
          escUnesc t₂ hnt₂ hrt₂]
      · by_cases hd2 : d = 'r'
        · rw [h1, hd2, unqN_cons₂_neg _ (by decide), unqN_cons_ne _ (by decide),
            unqR_cons₂_bsr, escN_cons_ne _ (by decide), escR_cons_cr,
            escUnesc t₂ hnt₂ hrt₂]
        · rw [h1, unqN_cons₂_neg _ (fun hm => hd1 hm.2),
            unqR_cons_bs (fun Z => unqN_head_ne_r _ hd2 Z),
            escN_cons_ne _ (by decide), escR_cons_ne _ (by decide),
            escUnesc (d :: t₂) hdn hdr]
    · have h2 : c ≠ '\n' := fun h => hn (h ▸ List.mem_cons_self _ _)
      have h3 : c ≠ '\r' := fun h => hr (h ▸ List.mem_cons_self _ _)
      rw [unqN_cons_ne _ h1, unqR_cons_ne _ h1, escN_cons_ne _ h2, escR_cons_ne _ h3,
        escUnesc (d :: t₂) hdn hdr]
termination_by l _ _ => l.length
decreasing_by all_goals (simp only [List.length_cons]; omega)

-- === Data model (types/taskLog.ts and types/csvSchema.ts) ===

/-- TaskLogEntry from types/taskLog.ts. `duration` is a number holding the
parsed `duration_minutes` value, which validation constrains to a digit
string, so it is modelled as a natural number. -/
structure TaskLogEntry where
  id : String
  date : String
  startTime : String
  endTime : String
  duration : Nat
  taskGroupId : String
  taskGroupName : String
  content : String
  createdAt : String
  updatedAt : String
  originalEntry : Option String := none
deriving DecidableEq, Repr

/-- TaskGroup from types/taskLog.ts. -/
structure TaskGroup where
  id : String
  name : String
  color : Option String := none
  createdAt : String
  updatedAt : String
  isActive : Bool
deriving DecidableEq, Repr

/-- TaskLogCsvRow from types/csvSchema.ts. -/
structure TaskLogCsvRow where
  date : String
  start_time : String
  end_time : String
  duration_minutes : String
  task_group_id : String
  task_group_name : String
  content : String
  created_at : String
  updated_at : String
deriving DecidableEq, Repr

/-- TaskGroupCsvRow from types/csvSchema.ts. -/
structure TaskGroupCsvRow where
  id : String
  name : String
  color : String
  created_at : String
  updated_at : String
  is_active : String
deriving DecidableEq, Repr

/-- DateRangeFilter from types/taskLog.ts. -/
structure DateRangeFilter where
  startDate : String
  endDate : String
deriving DecidableEq, Repr

/-- The two members of the search-field union of SearchFilter. -/
inductive SearchField where
  | content
  | taskGroupName
deriving DecidableEq, Repr

/-- SearchFilter from types/taskLog.ts; the optional members are `Option`s,
with `none` standing for an omitted property. -/
structure SearchFilter where
  query : String
  fields : Option (List SearchField) := none
  caseSensitive : Option Bool := none
deriving Repr

/-- The error-code union of DataStoreError from types/dataStore.ts. -/
inductive ErrCode where
  | connectionError
  | validationError
  | notFound
  | duplicateEntry
  | permissionDenied
  | unknown
deriving DecidableEq, Repr

/-- DataStoreError from types/dataStore.ts (message and code; the wrapped
`details` value is not modelled). -/
structure DataStoreError where
  message : String
  code : ErrCode
deriving DecidableEq, Repr

/-- CsvParseError from types/csvSchema.ts. -/
structure CsvParseError where
  message : String
  row : Option Nat := none
  column : Option String := none
  originalData : Option String := none
deriving DecidableEq, Repr

/-- TASK_LOG_CSV_HEADERS from types/csvSchema.ts. -/
def TASK_LOG_CSV_HEADERS : List String :=
  ["date", "start_time", "end_time", "duration_minutes", "task_group_id",
   "task_group_name", "content", "created_at", "updated_at"]

-- === Validation patterns (the regexes of TASK_LOG_CSV_VALIDATION_RULES) ===

/-- Decision procedure for the regex `^\d{4}-\d{2}-\d{2}$`. -/
def matchesDatePat (s : String) : Bool :=
  match s.data with
  | [a, b, c, d, '-', e, f, '-', g, h] =>
    a.isDigit && b.isDigit && c.isDigit && d.isDigit &&
    e.isDigit && f.isDigit && g.isDigit && h.isDigit
  | _ => false

/-- Decision procedure for the regex `^\d{1,2}:\d{2}$`. -/
def matchesTimePat (s : String) : Bool :=
  match s.data with
  | [a, ':', b, c] => a.isDigit && b.isDigit && c.isDigit
  | [a, b, ':', c, d] => a.isDigit && b.isDigit && c.isDigit && d.isDigit
  | _ => false

/-- Decision procedure for the regex `^\d+$`. -/
def matchesDigits (s : String) : Bool :=
  !s.data.isEmpty && s.data.all Char.isDigit

/-- A hexadecimal digit, case-insensitive, as in the UUID regex's `[0-9a-f]`
with the `i` flag. -/
def isHexDigit (c : Char) : Bool :=
  c.isDigit || ('a' ≤ c && c ≤ 'f') || ('A' ≤ c && c ≤ 'F')

/-- Decision procedure for the UUID regex
`^[0-9a-f]{8}-[0-9a-f]{4}-[0-9a-f]{4}-[0-9a-f]{4}-[0-9a-f]{12}$/i`. -/
def matchesUuidPat (s : String) : Bool :=
  match splitOnChar '-' s.data with
  | [p1, p2, p3, p4, p5] =>
    p1.length == 8 && p2.length == 4 && p3.length == 4 && p4.length == 4 &&
    p5.length == 12 && (p1 ++ p2 ++ p3 ++ p4 ++ p5).all isHexDigit
  | _ => false

/-- Decision procedure for the timestamp regex
`^\d{4}-\d{2}-\d{2}T\d{2}:\d{2}:\d{2}(?:\.\d{3})?Z$`. -/
def matchesTimestampPat (s : String) : Bool :=
  match s.data with
  | [y1, y2, y3, y4, '-', m1, m2, '-', d1, d2, 'T',
     h1, h2, ':', n1, n2, ':', s1, s2, 'Z'] =>
    [y1, y2, y3, y4, m1, m2, d1, d2, h1, h2, n1, n2, s1, s2].all Char.isDigit
  | [y1, y2, y3, y4, '-', m1, m2, '-', d1, d2, 'T',
     h1, h2, ':', n1, n2, ':', s1, s2, '.', u1, u2, u3, 'Z'] =>
    [y1, y2, y3, y4, m1, m2, d1, d2, h1, h2, n1, n2, s1, s2, u1, u2, u3].all Char.isDigit
  | _ => false

/-- One rule check of CsvParser.validateTaskLogCsvRow: the required check,
then the pattern check, then the custom validator, in source order. -/
def ruleCheck (field value : String) (rowIndex : Option Nat) (msg : String)
    (pat : Option (String → Bool)) (vald : Option (String → Bool)) :
    Except CsvParseError Unit :=
  if trimStr value = "" then
    .error ⟨msg, rowIndex, some field, some value⟩
  else if value ≠ "" && (match pat with | some p => !(p value) | none => false) then
    .error ⟨msg, rowIndex, some field, some value⟩
  else if value ≠ "" && (match vald with | some p => !(p value) | none => false) then
    .error ⟨msg, rowIndex, some field, some value⟩
  else
    .ok ()

/-- CsvParser.validateTaskLogCsvRow: runs TASK_LOG_CSV_VALIDATION_RULES in
order; the first failing rule raises a CsvParseError naming the field. -/
def validateTaskLogCsvRow (row : TaskLogCsvRow) (rowIndex : Option Nat) :
    Except CsvParseError Unit := do
  ruleCheck "date" row.date rowIndex "Date must be in YYYY-MM-DD format"
    (some matchesDatePat) none
  ruleCheck "start_time" row.start_time rowIndex "Start time must be in HH:mm format"
    (some matchesTimePat) none
  ruleCheck "end_time" row.end_time rowIndex "End time must be in HH:mm format"
    (some matchesTimePat) none
  ruleCheck "duration_minutes" row.duration_minutes rowIndex "Duration must be a positive integer"
    (some matchesDigits) none
  ruleCheck "task_group_id" row.task_group_id rowIndex "Task group ID must be a valid UUID"
    (some matchesUuidPat) none
  ruleCheck "task_group_name" row.task_group_name rowIndex "Task group name cannot be empty"
    none (some (fun v => v.length > 0))
  ruleCheck "content" row.content rowIndex "Content cannot be empty"
    none (some (fun v => v.length > 0))
  ruleCheck "created_at" row.created_at rowIndex "Created at must be a valid ISO 8601 timestamp"
    (some matchesTimestampPat) none
  ruleCheck "updated_at" row.updated_at rowIndex "Updated at must be a valid ISO 8601 timestamp"
    (some matchesTimestampPat) none

-- === CsvParser conversions (csvParser.ts) ===

/-- CsvParser.taskLogEntryToCsvRow. -/
def taskLogEntryToCsvRow (e : TaskLogEntry) : TaskLogCsvRow :=
  { date := e.date
    start_time := e.startTime
    end_time := e.endTime
    duration_minutes := toString e.duration
    task_group_id := e.taskGroupId
    task_group_name := e.taskGroupName
    content := escapeCsvValue e.content
    created_at := e.createdAt
    updated_at := e.updatedAt }

/-- Models `parseInt` on the validated digit strings that reach it (the
validation pattern `^\d+$` has run before every call). -/
def jsParseIntNat (s : String) : Nat :=
  s.data.foldl (fun n c => n * 10 + (c.toNat - '0'.toNat)) 0

/-- CsvParser.csvRowToTaskLogEntry. The store's parser is constructed with
`enableValidation: true`, so the validation pass always runs. The call
`uuidv4()` produces a value chosen by the environment; it is modelled by the
explicit `freshId` argument. -/
def csvRowToTaskLogEntry (freshId : String) (row : TaskLogCsvRow)
    (rowIndex : Option Nat) : Except CsvParseError TaskLogEntry :=
  match validateTaskLogCsvRow row rowIndex with
  | .error e => .error e
  | .ok _ => .ok
    { id := freshId
      date := row.date
      startTime := row.start_time
      endTime := row.end_time
      duration := jsParseIntNat row.duration_minutes
      taskGroupId := row.task_group_id
      taskGroupName := row.task_group_name
      content := unescapeCsvValue row.content
      createdAt := row.created_at
      updatedAt := row.updated_at }

/-- CsvParser.taskGroupToCsvRow. `group.color || ""` maps an absent or empty
color to the empty string; `group.isActive.toString()` gives "true"/"false". -/
def taskGroupToCsvRow (g : TaskGroup) : TaskGroupCsvRow :=
  { id := g.id
    name := escapeCsvValue g.name
    color := match g.color with | some c => c | none => ""
    created_at := g.createdAt
    updated_at := g.updatedAt
    is_active := if g.isActive then "true" else "false" }

/-- CsvParser.csvRowToTaskGroup. `row.color || undefined` maps the empty
string to an absent color; `row.is_active === "true"` is the boolean parse. -/
def csvRowToTaskGroup (row : TaskGroupCsvRow) : TaskGroup :=
  { id := row.id
    name := unescapeCsvValue row.name
    color := if row.color = "" then none else some row.color
    createdAt := row.created_at
    updatedAt := row.updated_at
    isActive := row.is_active = "true" }

-- === CsvParser line handling (csvParser.ts) ===

/-- The CsvParser configuration fields the parsing and formatting functions
consult. The store constructs its parser with the defaults (comma delimiter,
double-quote quote character) plus `enableValidation: true` and
`hasHeader: true`. -/
structure CsvConfig where
  delimiter : Char := ','
  quote : Char := '"'
  hasHeader : Bool := true
  enableValidation : Bool := true
deriving Repr

/-- The configuration of the parser DuckDBStore constructs. -/
def storeCsvConfig : CsvConfig := {}

/-- The scanning loop of CsvParser.parseCsvLine: `cur` is the field being
accumulated and `inQ` the inQuotes flag. The source never throws here. -/
def parseCsvLineGo (cfg : CsvConfig) (cur : List Char) (inQ : Bool) :
    List Char → List (List Char)
  | [] => [cur]
  | [c] =>
    if c == cfg.quote then parseCsvLineGo cfg cur (!inQ) []
    else if c == cfg.delimiter && !inQ then cur :: parseCsvLineGo cfg [] inQ []
    else parseCsvLineGo cfg (cur ++ [c]) inQ []
  | c :: d :: cs =>
    if c == cfg.quote then
      if inQ && (d == cfg.quote) then parseCsvLineGo cfg (cur ++ [cfg.quote]) inQ cs
      else parseCsvLineGo cfg cur (!inQ) (d :: cs)
    else if c == cfg.delimiter && !inQ then cur :: parseCsvLineGo cfg [] inQ (d :: cs)
    else parseCsvLineGo cfg (cur ++ [c]) inQ (d :: cs)

/-- CsvParser.parseCsvLine. -/
def parseCsvLine (cfg : CsvConfig) (line : String) : List String :=
  (parseCsvLineGo cfg [] false line.data).map String.mk

/-- CsvParser.parseCsvContent: split on newlines, keep the lines whose trim
is nonempty, and scan each trimmed line. The per-line try/catch of the
source never fires because parseCsvLine is total. -/
def parseCsvContent (cfg : CsvConfig) (content : String) : List (List String) :=
  ((splitStr '\n' content).filter (fun l => trimStr l ≠ "")).map
    (fun l => parseCsvLine cfg (trimStr l))

/-- CsvParser.arrayToCsvRow for the task-log headers: `array[index] || ""`
maps a missing or empty field to the empty string. -/
def listToTaskLogCsvRow (fields : List String) : TaskLogCsvRow :=
  { date := fields.getD 0 ""
    start_time := fields.getD 1 ""
    end_time := fields.getD 2 ""
    duration_minutes := fields.getD 3 ""
    task_group_id := fields.getD 4 ""
    task_group_name := fields.getD 5 ""
    content := fields.getD 6 ""
    created_at := fields.getD 7 ""
    updated_at := fields.getD 8 "" }

/-- The per-row conversion loop of CsvParser.readTaskLogsCsv: data row number
`idx` (zero-based) is reported as CSV row `idx + 2` because of the header;
the first CsvParseError aborts the whole read. -/
def readTaskLogRows (fresh : Nat → String) :
    Nat → List (List String) → Except CsvParseError (List TaskLogEntry)
  | _, [] => .ok []
  | idx, r :: rs =>
    match csvRowToTaskLogEntry (fresh idx) (listToTaskLogCsvRow r) (some (idx + 2)) with
    | .error e => .error e
    | .ok e =>
      match readTaskLogRows fresh (idx + 1) rs with
      | .error e₂ => .error e₂
      | .ok es => .ok (e :: es)

/-- CsvParser.readTaskLogsCsv on the file contents (the filesystem read is
supplied as `content`): parse, skip the header row, convert each data row.
`fresh` supplies the uuidv4 results, one per data row. -/
def readTaskLogsFromContent (fresh : Nat → String) (content : String) :
    Except CsvParseError (List TaskLogEntry) :=
  readTaskLogRows fresh 0 ((parseCsvContent storeCsvConfig content).drop 1)

/-- CsvParser.formatCsvField: wrap in quotes when the value contains the
delimiter, the quote character, a newline or a carriage return, doubling each
embedded quote (the `value.replace(new RegExp(quote, "g"), quote + quote)`
call, for the default quote character); otherwise emit the value bare. -/
def formatCsvField (cfg : CsvConfig) (value : String) : String :=
  if value.data.contains cfg.delimiter || value.data.contains cfg.quote ||
      value.data.contains '\n' || value.data.contains '\r' then
    ⟨cfg.quote :: (replaceChar cfg.quote [cfg.quote, cfg.quote] value.data ++ [cfg.quote])⟩
  else value

/-- The nine row fields in header order, as generateCsvContent reads them. -/
def taskLogRowFields (r : TaskLogCsvRow) : List String :=
  [r.date, r.start_time, r.end_time, r.duration_minutes, r.task_group_id,
   r.task_group_name, r.content, r.created_at, r.updated_at]

/-- One emitted line of CsvParser.generateCsvContent: each field formatted
with formatCsvField, joined with the delimiter. -/
def csvLine (cfg : CsvConfig) (fields : List String) : String :=
  joinSep (String.mk [cfg.delimiter]) (fields.map (formatCsvField cfg))

/-- CsvParser.writeTaskLogsCsv (through generateCsvContent) on the entry
list: the header line, then one line per entry, joined with newlines, plus a
trailing newline. -/
def writeTaskLogsContent (entries : List TaskLogEntry) : String :=
  joinSep "\n" (csvLine storeCsvConfig TASK_LOG_CSV_HEADERS ::
    entries.map (fun e => csvLine storeCsvConfig (taskLogRowFields (taskLogEntryToCsvRow e)))) ++ "\n"

-- === DuckDBStore operations (duckdbStore.ts) ===

/-- The two CSV files of DuckDBStore, by their current contents. -/
structure StoreState where
  taskLogsCsv : String
  taskGroupsCsv : String
deriving DecidableEq, Repr

/-- The header line ensureCSVFilesExist writes to the task-log file. -/
def taskLogsHeader : String :=
  "date,start_time,end_time,duration_minutes,task_group_id,task_group_name,content,created_at,updated_at"

/-- The header line ensureCSVFilesExist writes to the task-group file. -/
def taskGroupsHeader : String := "id,name,color,created_at,updated_at,is_active"

/-- The store state right after initialization on an empty directory: both
files hold only their header line. -/
def initialStoreState : StoreState :=
  ⟨taskLogsHeader ++ "\n", taskGroupsHeader ++ "\n"⟩

/-- A `Partial TaskLogEntry` as passed to updateTaskLog: `some` marks a
property present in the update object. -/
structure TaskLogUpdates where
  id : Option String := none
  date : Option String := none
  startTime : Option String := none
  endTime : Option String := none
  duration : Option Nat := none
  taskGroupId : Option String := none
  taskGroupName : Option String := none
  content : Option String := none
  createdAt : Option String := none
  updatedAt : Option String := none
  originalEntry : Option (Option String) := none
deriving Repr

/-- The object spread `{ ...existing, ...updates }`. -/
def applyLogUpdates (e : TaskLogEntry) (u : TaskLogUpdates) : TaskLogEntry :=
  { id := u.id.getD e.id
    date := u.date.getD e.date
    startTime := u.startTime.getD e.startTime
    endTime := u.endTime.getD e.endTime
    duration := u.duration.getD e.duration
    taskGroupId := u.taskGroupId.getD e.taskGroupId
    taskGroupName := u.taskGroupName.getD e.taskGroupName
    content := u.content.getD e.content
    createdAt := u.createdAt.getD e.createdAt
    updatedAt := u.updatedAt.getD e.updatedAt
    originalEntry := u.originalEntry.getD e.originalEntry }

/-- A `Partial TaskGroup` as passed to updateTaskGroup. -/
structure TaskGroupUpdates where
  id : Option String := none
  name : Option String := none
  color : Option (Option String) := none
  createdAt : Option String := none
  updatedAt : Option String := none
  isActive : Option Bool := none
deriving Repr

/-- The object spread `{ ...existing, ...updates }` for groups. -/
def applyGroupUpdates (g : TaskGroup) (u : TaskGroupUpdates) : TaskGroup :=
  { id := u.id.getD g.id
    name := u.name.getD g.name
    color := u.color.getD g.color
    createdAt := u.createdAt.getD g.createdAt
    updatedAt := u.updatedAt.getD g.updatedAt
    isActive := u.isActive.getD g.isActive }

/-- The collection transformation of DuckDBStore.saveTaskLog between its
readTaskLogsCsv call and its writeTaskLogsCsv call: locate the id with
findIndex, replace in place, or append. Every `new Date().toISOString()`
call of the operation is the single instant `now`; `freshId` models the
`uuidv4()` fallback for an entry saved with an empty id. -/
def saveTaskLogUpsert (now freshId : String) (entries : List TaskLogEntry)
    (entry : TaskLogEntry) : List TaskLogEntry :=
  let i := entries.findIdx (fun e => e.id == entry.id)
  if i < entries.length then
    entries.set i { entry with updatedAt := now }
  else
    entries ++ [{ entry with
      id := if entry.id = "" then freshId else entry.id,
      createdAt := if entry.createdAt = "" then now else entry.createdAt,
      updatedAt := now }]

/-- DuckDBStore.updateTaskLog as a transformation of the store state: read
the task-log file, locate the id, raise NOT_FOUND with the state unchanged,
or rewrite the whole file. A CsvParseError from the read is re-wrapped by
the catch block as an UNKNOWN DataStoreError. -/
def updateTaskLogStore (now : String) (fresh : Nat → String) (st : StoreState)
    (id : String) (u : TaskLogUpdates) : StoreState × Option DataStoreError :=
  match readTaskLogsFromContent fresh st.taskLogsCsv with
  | .error pe => (st, some ⟨"Failed to update task log: " ++ pe.message, .unknown⟩)
  | .ok entries =>
    let i := entries.findIdx (fun e => e.id == id)
    if h : i < entries.length then
      ({ st with taskLogsCsv := writeTaskLogsContent (entries.set i
          { applyLogUpdates (entries.get ⟨i, h⟩) u with updatedAt := now }) }, none)
    else
      (st, some ⟨"Task log with ID " ++ id ++ " not found", .notFound⟩)

/-- DuckDBStore.deleteTaskLog as a transformation of the store state. -/
def deleteTaskLogStore (fresh : Nat → String) (st : StoreState) (id : String) :
    StoreState × Option DataStoreError :=
  match readTaskLogsFromContent fresh st.taskLogsCsv with
  | .error pe => (st, some ⟨"Failed to delete task log: " ++ pe.message, .unknown⟩)
  | .ok entries =>
    let filtered := entries.filter (fun e => e.id != id)
    if filtered.length = entries.length then
      (st, some ⟨"Task log with ID " ++ id ++ " not found", .notFound⟩)
    else
      ({ st with taskLogsCsv := writeTaskLogsContent filtered }, none)

/-- DuckDBStore.getTaskGroups on the file contents: split into lines, keep
the ones with nonempty trim, drop the header, split each data line on every
comma with no quote handling, and convert with csvRowToTaskGroup. A field a
short line leaves undefined is modelled as the empty string (in the source a
line with fewer than two fields would make unescapeCsvValue throw). -/
def getTaskGroupsFromContent (content : String) : List TaskGroup :=
  (((splitStr '\n' content).filter (fun l => trimStr l ≠ "")).drop 1).map (fun line =>
    let parts := splitStr ',' line
    csvRowToTaskGroup
      { id := parts.getD 0 ""
        name := parts.getD 1 ""
        color := parts.getD 2 ""
        created_at := parts.getD 3 ""
        updated_at := parts.getD 4 ""
        is_active := parts.getD 5 "" })

/-- The data line DuckDBStore.saveTaskGroup writes for a group: the six row
fields joined with commas by template-string concatenation — no quoting. -/
def taskGroupNewLine (g : TaskGroup) : String :=
  let r := taskGroupToCsvRow g
  r.id ++ "," ++ r.name ++ "," ++ r.color ++ "," ++ r.created_at ++ "," ++
    r.updated_at ++ "," ++ r.is_active

/-- DuckDBStore.saveTaskGroup as a transformation of the store state: keep
the lines with nonempty trim, take the first as header, locate an existing
row by its first comma-separated field, replace or append the new line, and
rewrite the file. -/
def saveTaskGroupStore (st : StoreState) (g : TaskGroup) :
    StoreState × Option DataStoreError :=
  let lines := (splitStr '\n' st.taskGroupsCsv).filter (fun l => trimStr l ≠ "")
  let header := lines.getD 0 ""
  let dataLines := lines.drop 1
  let i := dataLines.findIdx (fun line => (splitStr ',' line).getD 0 "" == g.id)
  let newLine := taskGroupNewLine g
  let newDataLines :=
    if i < dataLines.length then dataLines.set i newLine else dataLines ++ [newLine]
  ({ st with taskGroupsCsv := joinSep "\n" (header :: newDataLines) ++ "\n" }, none)

/-- DuckDBStore.updateTaskGroup as a transformation of the store state: read
the groups, locate the id, raise NOT_FOUND with the state unchanged, or save
the merged group through saveTaskGroup. -/
def updateTaskGroupStore (now : String) (st : StoreState) (id : String)
    (u : TaskGroupUpdates) : StoreState × Option DataStoreError :=
  let groups := getTaskGroupsFromContent st.taskGroupsCsv
  let i := groups.findIdx (fun g => g.id == id)
  if h : i < groups.length then
    saveTaskGroupStore st { applyGroupUpdates (groups.get ⟨i, h⟩) u with updatedAt := now }
  else
    (st, some ⟨"Task group with ID " ++ id ++ " not found", .notFound⟩)

/-- DuckDBStore.deleteTaskGroup as a transformation of the store state. -/
def deleteTaskGroupStore (st : StoreState) (id : String) :
    StoreState × Option DataStoreError :=
  let groups := getTaskGroupsFromContent st.taskGroupsCsv
  let filtered := groups.filter (fun g => g.id != id)
  if filtered.length = groups.length then
    (st, some ⟨"Task group with ID " ++ id ++ " not found", .notFound⟩)
  else
    ({ st with taskGroupsCsv :=
        taskGroupsHeader ++ "\n" ++ joinSep "\n" (filtered.map taskGroupNewLine) ++ "\n" }, none)

-- === The generated SQL queries over the task_logs view ===

/-- Column lookup in the task_logs view `read_csv_auto` builds over the
task-log CSV: its columns are the CSV header names carrying the row fields.
An unknown name yields `none` (a binder error in the engine). -/
def taskLogColumn (r : TaskLogCsvRow) : String → Option String
  | "date" => some r.date
  | "start_time" => some r.start_time
  | "end_time" => some r.end_time
  | "duration_minutes" => some r.duration_minutes
  | "task_group_id" => some r.task_group_id
  | "task_group_name" => some r.task_group_name
  | "content" => some r.content
  | "created_at" => some r.created_at
  | "updated_at" => some r.updated_at
  | _ => none

/-- The column names the task_logs view exposes. -/
def isTaskLogColumn (c : String) : Bool := TASK_LOG_CSV_HEADERS.contains c

/-- The needle list leads the haystack list. -/
def leadsWith : List Char → List Char → Bool
  | [], _ => true
  | _ :: _, [] => false
  | a :: as, b :: bs => a == b && leadsWith as bs

/-- The needle list occurs somewhere inside the haystack list. -/
def containsSub (needle : List Char) : List Char → Bool
  | [] => leadsWith needle []
  | c :: t => leadsWith needle (c :: t) || containsSub needle t

/-- Evaluation of `col LIKE '%q%'` (case sensitive) or `col ILIKE '%q%'`
(case folded), for a query free of SQL wildcard, escape and quote
characters: substring containment. -/
def likeContains (caseSensitive : Bool) (q v : String) : Bool :=
  if caseSensitive then containsSub q.data v.data
  else containsSub (q.data.map Char.toLower) (v.data.map Char.toLower)

/-- The comparator of `ORDER BY date DESC, start_time DESC` on view rows:
`a` sorts no later than `b` when its (date, start_time) key is
lexicographically no smaller. -/
def rowOrderDesc (a b : TaskLogCsvRow) : Bool :=
  decide (b.date < a.date ∨ (b.date = a.date ∧ b.start_time ≤ a.start_time))

/-- DuckDBStore.getTaskLogs with a DateRangeFilter: the generated query is
`SELECT * FROM task_logs WHERE date BETWEEN s AND e ORDER BY date DESC,
start_time DESC` — BETWEEN is inclusive on both ends, string comparison is
lexicographic, and the view rows are the stored collection's rows. -/
def getTaskLogsQuery (f : DateRangeFilter) (rows : List TaskLogCsvRow) :
    List TaskLogCsvRow :=
  (rows.filter (fun r => decide (f.startDate ≤ r.date ∧ r.date ≤ f.endDate))).mergeSort
    rowOrderDesc

/-- The column list DuckDBStore.searchTaskLogs interpolates into its query:
the field "taskGroupName" is mapped to the view column "task_group_name",
and "content" is used as is; an omitted `fields` defaults to both fields. -/
def searchTaskLogsColumns (sf : SearchFilter) : List String :=
  (sf.fields.getD [.content, .taskGroupName]).map (fun f =>
    match f with
    | .taskGroupName => "task_group_name"
    | .content => "content")

/-- The column list the search branch of DuckDBStore.getFilteredTaskLogs
interpolates: the field name is used verbatim, so an explicit
`taskGroupName` member stays "taskGroupName"; only the default for an
omitted `fields` names the view column "task_group_name". -/
def getFilteredSearchColumns (sf : SearchFilter) : List String :=
  match sf.fields with
  | some fs => fs.map (fun f =>
      match f with
      | .taskGroupName => "taskGroupName"
      | .content => "content")
  | none => ["content", "task_group_name"]

/-- Evaluation of a generated search query over the task_logs view: a
reference to a column the view does not have is a binder error, surfaced by
executeCsvQuery as an UNKNOWN DataStoreError; otherwise the rows matching
any of the columns are returned ordered by date and start time descending. -/
def runSearchQuery (cols : List String) (cs : Bool) (q : String)
    (rows : List TaskLogCsvRow) : Except DataStoreError (List TaskLogCsvRow) :=
  if cols.all isTaskLogColumn then
    .ok ((rows.filter (fun r =>
      cols.any (fun c => likeContains cs q ((taskLogColumn r c).getD "")))).mergeSort
        rowOrderDesc)
  else
    .error ⟨"SQL query failed: referenced column not found", .unknown⟩

/-- DuckDBStore.searchTaskLogs over the view rows; `caseSensitive` is truthy
only as `some true`. -/
def searchTaskLogsModel (sf : SearchFilter) (rows : List TaskLogCsvRow) :
    Except DataStoreError (List TaskLogCsvRow) :=
  runSearchQuery (searchTaskLogsColumns sf) (sf.caseSensitive.getD false) sf.query rows

/-- The search component of DuckDBStore.getFilteredTaskLogs: the query built
when only the `search` filter is supplied. -/
def getFilteredSearchModel (sf : SearchFilter) (rows : List TaskLogCsvRow) :
    Except DataStoreError (List TaskLogCsvRow) :=
  runSearchQuery (getFilteredSearchColumns sf) (sf.caseSensitive.getD false) sf.query rows

/-- Lexicographic character-list comparison: the order in which both SQL
string comparison and ISO-8601 timestamps compare. -/
def charListLt : List Char → List Char → Bool
  | [], [] => false
  | [], _ :: _ => true
  | _ :: _, [] => false
  | a :: as, b :: bs => if a < b then true else if a = b then charListLt as bs else false

/-- Strict lexicographic string comparison. -/
def strLt (a b : String) : Bool := charListLt a.data b.data

-- === Claim theorems ===

/-- C10: csvRowToTaskGroup sets isActive to true exactly when the is_active
field is the literal lowercase string "true"; any other value — including
"TRUE", "false", "1" and the empty string — yields false, and the conversion
is total, so no validation error is ever raised. -/
theorem csvRowToTaskGroup_isActive :
    (∀ row : TaskGroupCsvRow,
      ((csvRowToTaskGroup row).isActive = true ↔ row.is_active = "true")) ∧
    (csvRowToTaskGroup ⟨"g", "n", "", "t", "t", "TRUE"⟩).isActive = false ∧
    (csvRowToTaskGroup ⟨"g", "n", "", "t", "t", "false"⟩).isActive = false ∧
    (csvRowToTaskGroup ⟨"g", "n", "", "t", "t", "1"⟩).isActive = false ∧
    (csvRowToTaskGroup ⟨"g", "n", "", "t", "t", ""⟩).isActive = false := by
  refine ⟨fun row => ?_, by decide, by decide, by decide, by decide⟩
  simp [csvRowToTaskGroup]

/-- C2: csvRowToTaskLogEntry gives the reconstructed entry the freshly minted
identifier — independently of every value in the row — so two parses of the
same row with distinct fresh identifiers yield entries with different ids. -/
theorem csvRowToTaskLogEntry_freshId (f₁ f₂ : String) (row : TaskLogCsvRow)
    (idx : Option Nat) (e₁ e₂ : TaskLogEntry)
    (h₁ : csvRowToTaskLogEntry f₁ row idx = .ok e₁)
    (h₂ : csvRowToTaskLogEntry f₂ row idx = .ok e₂)
    (hne : f₁ ≠ f₂) :
    e₁.id = f₁ ∧ e₂.id = f₂ ∧ e₁.id ≠ e₂.id := by
  unfold csvRowToTaskLogEntry at h₁ h₂
  cases hv : validateTaskLogCsvRow row idx with
  | error e => rw [hv] at h₁; cases h₁
  | ok u =>
    rw [hv] at h₁ h₂
    cases h₁
    cases h₂
    exact ⟨rfl, rfl, hne⟩

/-- A task-log CSV row all of whose fields pass validation. -/
def wRow : TaskLogCsvRow :=
  ⟨"2024-01-05", "09:00", "09:30", "30", "123e4567-e89b-12d3-a456-426614174000",
   "Writing", "Draft", "2024-01-05T09:00:00Z", "2024-01-05T09:30:00Z"⟩

theorem csvRowToTaskLogEntry_freshId_witness :
    ∃ e₁ e₂ : TaskLogEntry,
      csvRowToTaskLogEntry "uuid-1" wRow none = .ok e₁ ∧
      csvRowToTaskLogEntry "uuid-2" wRow none = .ok e₂ ∧
      e₁.id = "uuid-1" ∧ e₂.id = "uuid-2" ∧ e₁.id ≠ e₂.id := by
  have h₁ : csvRowToTaskLogEntry "uuid-1" wRow none = .ok
      ⟨"uuid-1", "2024-01-05", "09:00", "09:30", 30,
       "123e4567-e89b-12d3-a456-426614174000", "Writing", "Draft",
       "2024-01-05T09:00:00Z", "2024-01-05T09:30:00Z", none⟩ := by rfl
  have h₂ : csvRowToTaskLogEntry "uuid-2" wRow none = .ok
      ⟨"uuid-2", "2024-01-05", "09:00", "09:30", 30,
       "123e4567-e89b-12d3-a456-426614174000", "Writing", "Draft",
       "2024-01-05T09:00:00Z", "2024-01-05T09:30:00Z", none⟩ := by rfl
  have h := csvRowToTaskLogEntry_freshId "uuid-1" "uuid-2" wRow none _ _ h₁ h₂ (by decide)
  exact ⟨_, _, h₁, h₂, h.1, h.2.1, h.2.2⟩

/-- C4 as stated is false: a valid TaskGroup CSV row whose name field is a
single quote character comes back with the name doubled, because
unescapeCsvValue leaves a lone quote alone while escapeCsvValue doubles it. -/
def c4row : TaskGroupCsvRow :=
  ⟨"g1", "\"", "", "2024-01-01T00:00:00Z", "2024-01-01T00:00:00Z", "true"⟩

theorem taskGroup_row_roundtrip_counterexample :
    (c4row.is_active = "true" ∨ c4row.is_active = "false") ∧
    taskGroupToCsvRow (csvRowToTaskGroup c4row) ≠ c4row ∧
    (taskGroupToCsvRow (csvRowToTaskGroup c4row)).name = "\"\"" := by
  refine ⟨Or.inl rfl, ?_, by decide⟩
  intro h
  have := congrArg TaskGroupCsvRow.name h
  exact absurd this (by decide)

/-- C4 amended: for every valid TaskGroup CSV row (is_active a literal
"true"/"false") whose name contains no quote character, no newline and no
carriage return, converting to a TaskGroup and back yields the original row
unchanged in every field. -/
theorem taskGroup_row_roundtrip (row : TaskGroupCsvRow)
    (hval : row.is_active = "true" ∨ row.is_active = "false")
    (hq : '"' ∉ row.name.data) (hn : '\n' ∉ row.name.data) (hr : '\r' ∉ row.name.data) :
    taskGroupToCsvRow (csvRowToTaskGroup row) = row := by
  have hname : escapeCsvValue (unescapeCsvValue row.name) = row.name := by
    simp only [escapeCsvValue, unescapeCsvValue, escQ, escN, escR, unqQ, unqN, unqR]
    rw [replacePair_eq_self hq]
    have hxq : '"' ∉ replacePair '\\' 'r' ['\r'] (replacePair '\\' 'n' ['\n'] row.name.data) := by
      intro hmem
      rcases mem_replacePair _ hmem with h1 | h1
      · rcases mem_replacePair _ h1 with h2 | h2
        · exact hq h2
        · simp at h2
      · simp at h1
    rw [replaceChar_eq_self hxq]
    have := escUnesc row.name.data hn hr
    simp only [escQ, escN, escR, unqQ, unqN, unqR] at this
    rw [this]
  rcases hval with h | h <;> by_cases hc : row.color = "" <;>
    simp [taskGroupToCsvRow, csvRowToTaskGroup, h, hc, hname] <;>
    (try rw [← hc]) <;> rw [← h]

theorem taskGroup_row_roundtrip_witness :
    taskGroupToCsvRow (csvRowToTaskGroup
      ⟨"g1", "Writing", "red", "2024-01-01T00:00:00Z", "2024-01-01T00:00:00Z", "true"⟩) =
      ⟨"g1", "Writing", "red", "2024-01-01T00:00:00Z", "2024-01-01T00:00:00Z", "true"⟩ :=
  taskGroup_row_roundtrip _ (Or.inl rfl) (by decide) (by decide) (by decide)

/-- C1: on the collection saveTaskLog reads from the task-log file, saving an
entry whose id is already present replaces that entry in place — the length
is unchanged and its updatedAt becomes the save instant, a strict advance
when every stored updatedAt precedes the save instant — while saving an
entry with an absent id appends exactly one new entry. -/
theorem saveTaskLog_upsert (now freshId : String) (entries : List TaskLogEntry)
    (entry : TaskLogEntry)
    (hadv : ∀ e ∈ entries, strLt e.updatedAt now = true) :
    ((∃ e ∈ entries, e.id = entry.id) →
      (saveTaskLogUpsert now freshId entries entry).length = entries.length ∧
      ∃ i, ∃ hi : i < entries.length,
        (entries.get ⟨i, hi⟩).id = entry.id ∧
        saveTaskLogUpsert now freshId entries entry =
          entries.set i { entry with updatedAt := now } ∧
        strLt (entries.get ⟨i, hi⟩).updatedAt
          ({ entry with updatedAt := now } : TaskLogEntry).updatedAt = true) ∧
    ((∀ e ∈ entries, e.id ≠ entry.id) →
      saveTaskLogUpsert now freshId entries entry =
        entries ++ [{ entry with
          id := if entry.id = "" then freshId else entry.id,
          createdAt := if entry.createdAt = "" then now else entry.createdAt,
          updatedAt := now }] ∧
      (saveTaskLogUpsert now freshId entries entry).length = entries.length + 1) := by
  constructor
  · intro hex
    have hlt : entries.findIdx (fun e => e.id == entry.id) < entries.length := by
      apply List.findIdx_lt_length.mpr
      obtain ⟨e, he, hid⟩ := hex
      exact ⟨e, he, by simpa using hid⟩
    have heq : saveTaskLogUpsert now freshId entries entry =
        entries.set (entries.findIdx (fun e => e.id == entry.id))
          { entry with updatedAt := now } := by
      simp only [saveTaskLogUpsert]
      rw [if_pos hlt]
    refine ⟨by rw [heq]; exact List.length_set .., ?_⟩
    refine ⟨entries.findIdx (fun e => e.id == entry.id), hlt, ?_, heq, ?_⟩
    · have := @List.findIdx_getElem _ (fun e => e.id == entry.id) entries hlt
      simpa [List.get_eq_getElem] using this
    · exact hadv _ (by simp only [List.get_eq_getElem]; exact List.getElem_mem hlt)
  · intro hnone
    have hnf : entries.findIdx (fun e => e.id == entry.id) = entries.length := by
      apply List.findIdx_eq_length.mpr
      intro e he
      simpa using hnone e he
    have heq : saveTaskLogUpsert now freshId entries entry =
        entries ++ [{ entry with
          id := if entry.id = "" then freshId else entry.id,
          createdAt := if entry.createdAt = "" then now else entry.createdAt,
          updatedAt := now }] := by
      simp only [saveTaskLogUpsert]
      rw [hnf, if_neg (lt_irrefl _)]
    exact ⟨heq, by rw [heq]; simp⟩

/-- A stored entry for the upsert witness. -/
def c1entry : TaskLogEntry :=
  ⟨"e1", "2024-01-05", "09:00", "09:30", 30, "123e4567-e89b-12d3-a456-426614174000",
   "Writing", "Draft", "2024-01-05T09:00:00Z", "2024-01-05T09:30:00Z", none⟩

theorem saveTaskLog_upsert_witness :
    (saveTaskLogUpsert "2024-02-01T00:00:00Z" "f" [c1entry]
      { c1entry with content := "edited" }).length = 1 ∧
    (saveTaskLogUpsert "2024-02-01T00:00:00Z" "f" [c1entry]
      { c1entry with id := "e2" }).length = 2 := by
  have h := saveTaskLog_upsert "2024-02-01T00:00:00Z" "f" [c1entry]
    { c1entry with content := "edited" } (by decide)
  have h₂ := saveTaskLog_upsert "2024-02-01T00:00:00Z" "f" [c1entry]
    { c1entry with id := "e2" } (by decide)
  refine ⟨?_, ?_⟩
  · exact (h.1 ⟨c1entry, List.mem_cons_self _ _, rfl⟩).1
  · exact (h₂.2 (by decide)).2

/-- C7: for an identifier absent from the corresponding collection,
updateTaskLog, deleteTaskLog, updateTaskGroup and deleteTaskGroup all raise
a NOT_FOUND DataStoreError and leave both CSV files exactly as they were:
the throw happens before any write. -/
theorem notFound_leaves_store_unchanged
    (st : StoreState) (id now : String) (fresh : Nat → String)
    (uLog : TaskLogUpdates) (uGrp : TaskGroupUpdates)
    (entries : List TaskLogEntry)
    (hread : readTaskLogsFromContent fresh st.taskLogsCsv = .ok entries)
    (hlog : ∀ e ∈ entries, e.id ≠ id)
    (hgrp : ∀ g ∈ getTaskGroupsFromContent st.taskGroupsCsv, g.id ≠ id) :
    updateTaskLogStore now fresh st id uLog =
      (st, some ⟨"Task log with ID " ++ id ++ " not found", .notFound⟩) ∧
    deleteTaskLogStore fresh st id =
      (st, some ⟨"Task log with ID " ++ id ++ " not found", .notFound⟩) ∧
    updateTaskGroupStore now st id uGrp =
      (st, some ⟨"Task group with ID " ++ id ++ " not found", .notFound⟩) ∧
    deleteTaskGroupStore st id =
      (st, some ⟨"Task group with ID " ++ id ++ " not found", .notFound⟩) := by
  have hfind : entries.findIdx (fun e => e.id == id) = entries.length :=
    List.findIdx_eq_length.mpr (fun e he => by simpa using hlog e he)
  have hgfind : (getTaskGroupsFromContent st.taskGroupsCsv).findIdx (fun g => g.id == id) =
      (getTaskGroupsFromContent st.taskGroupsCsv).length :=
    List.findIdx_eq_length.mpr (fun g hg => by simpa using hgrp g hg)
  refine ⟨?_, ?_, ?_, ?_⟩
  · simp only [updateTaskLogStore, hread]
    rw [dif_neg (by rw [hfind]; exact lt_irrefl _)]
  · simp only [deleteTaskLogStore, hread]
    rw [if_pos (congrArg List.length
      (List.filter_eq_self.mpr (fun e he => by simpa using hlog e he)))]
  · simp only [updateTaskGroupStore]
    rw [dif_neg (by rw [hgfind]; exact lt_irrefl _)]
  · simp only [deleteTaskGroupStore]
    rw [if_pos (congrArg List.length
      (List.filter_eq_self.mpr (fun g hg => by simpa using hgrp g hg)))]

theorem notFound_leaves_store_unchanged_witness :
    deleteTaskGroupStore initialStoreState "missing" =
      (initialStoreState, some ⟨"Task group with ID " ++ "missing" ++ " not found",
        .notFound⟩) ∧
    updateTaskLogStore "2024-01-01T00:00:00Z" (fun n => "uuid-" ++ toString n)
      initialStoreState "missing" {} =
      (initialStoreState, some ⟨"Task log with ID " ++ "missing" ++ " not found",
        .notFound⟩) := by
  have h := notFound_leaves_store_unchanged initialStoreState "missing"
    "2024-01-01T00:00:00Z" (fun n => "uuid-" ++ toString n) {} {} []
    (by rfl)
    (by intro e he; cases he)
    (by
      intro g hg
      rw [show getTaskGroupsFromContent initialStoreState.taskGroupsCsv = [] from rfl] at hg
      cases hg)
  exact ⟨h.2.2.2, h.1⟩

-- === Character-set facts about escapeCsvValue, shared by C3 and C8 ===

theorem escape_keeps_no_quote {v : String} (h : '"' ∉ v.data) :
    '"' ∉ (escapeCsvValue v).data := by
  intro hmem
  simp only [escapeCsvValue, escQ, escN, escR] at hmem
  rw [replaceChar_eq_self h] at hmem
  rcases mem_replaceChar hmem with h1 | h1
  · rcases mem_replaceChar h1 with h2 | h2
    · exact h h2
    · simp at h2
  · simp at h1

theorem escape_keeps_no_comma {v : String} (h : ',' ∉ v.data) :
    ',' ∉ (escapeCsvValue v).data := by
  intro hmem
  simp only [escapeCsvValue, escQ, escN, escR] at hmem
  rcases mem_replaceChar hmem with h1 | h1
  · rcases mem_replaceChar h1 with h2 | h2
    · rcases mem_replaceChar h2 with h3 | h3
      · exact h h3
      · simp at h3
    · simp at h2
  · simp at h1

theorem escape_no_newline (v : String) : '\n' ∉ (escapeCsvValue v).data := by
  intro hmem
  simp only [escapeCsvValue, escQ, escN, escR] at hmem
  rcases mem_replaceChar hmem with h1 | h1
  · exact not_mem_replaceChar_self (by decide) h1
  · simp at h1

theorem escape_no_cr (v : String) : '\r' ∉ (escapeCsvValue v).data := by
  intro hmem
  simp only [escapeCsvValue, escQ, escN, escR] at hmem
  exact not_mem_replaceChar_self (by decide) hmem

/-- The quoting condition of formatCsvField under the store configuration. -/
def hasSpecialChar (v : String) : Bool :=
  v.data.contains ',' || v.data.contains '"' || v.data.contains '\n' || v.data.contains '\r'

theorem formatCsvField_cond (v : String) :
    formatCsvField storeCsvConfig v =
      if hasSpecialChar v = true then
        ⟨'"' :: (replaceChar '"' ['"', '"'] v.data ++ ['"'])⟩
      else v := by
  simp [formatCsvField, storeCsvConfig, hasSpecialChar]

/-- C3 as stated is false for the task-group write path: saveTaskGroup joins
the six row fields with commas and writes them with no quoting at all, so
the row written for a group whose name contains the delimiter carries that
field bare — the line holds no quote character anywhere. -/
def c3group : TaskGroup :=
  ⟨"g1", "a,b", none, "2024-01-01T00:00:00Z", "2024-01-01T00:00:00Z", true⟩

theorem formatCsvField_quoting_counterexample :
    (',' ∈ c3group.name.data) ∧
    taskGroupNewLine c3group =
      "g1,a,b,,2024-01-01T00:00:00Z,2024-01-01T00:00:00Z,true" ∧
    '"' ∉ (taskGroupNewLine c3group).data := by decide

/-- C3 amended: on the task-log write path every field goes through
formatCsvField, which quote-wraps exactly the fields containing the
delimiter, the quote character, a newline or a carriage return — doubling
interior quotes — and emits every other field bare; the task-group save and
delete paths join the six row fields with commas and never quote, so their
lines contain no quote character unless a field itself brought one. -/
theorem formatCsvField_quoting :
    (∀ v : String,
      ((formatCsvField storeCsvConfig v).data =
          '"' :: (replaceChar '"' ['"', '"'] v.data ++ ['"']) ↔ hasSpecialChar v = true) ∧
      (hasSpecialChar v = false → formatCsvField storeCsvConfig v = v)) ∧
    (∀ g : TaskGroup, '"' ∉ g.id.data → '"' ∉ g.name.data →
      (∀ c, g.color = some c → '"' ∉ c.data) →
      '"' ∉ g.createdAt.data → '"' ∉ g.updatedAt.data →
      '"' ∉ (taskGroupNewLine g).data) := by
  constructor
  · intro v
    have hbare : hasSpecialChar v = false → formatCsvField storeCsvConfig v = v := by
      intro hns
      rw [formatCsvField_cond, if_neg (by rw [hns]; exact Bool.false_ne_true)]
    refine ⟨⟨?_, ?_⟩, hbare⟩
    · intro hd
      cases hcase : hasSpecialChar v with
      | true => rfl
      | false =>
        rw [hbare hcase] at hd
        have hqin : '"' ∈ v.data := by rw [hd]; exact List.mem_cons_self _ _
        have htrue : hasSpecialChar v = true := by
          simp only [hasSpecialChar, Bool.or_eq_true]
          exact Or.inl (Or.inl (Or.inr (List.elem_iff.mpr hqin)))
        rw [hcase] at htrue
        exact absurd htrue Bool.false_ne_true
    · intro hs
      rw [formatCsvField_cond, if_pos hs]
  · intro g hid hname hcolor hca hua
    have hql : '"' ∉ (match g.color with | some c => c | none => "").data := by
      cases hcg : g.color with
      | none => simp
      | some c => exact hcolor c hcg
    have hqa : '"' ∉ (if g.isActive then "true" else "false").data := by
      cases g.isActive <;> decide
    have hqe : '"' ∉ (escapeCsvValue g.name).data := escape_keeps_no_quote hname
    have hcm : '"' ∉ ("," : String).data := by decide
    intro hmem
    simp only [taskGroupNewLine, taskGroupToCsvRow, String.data_append,
      List.mem_append] at hmem
    tauto

theorem formatCsvField_quoting_witness :
    formatCsvField storeCsvConfig "a,b" = "\"a,b\"" ∧
    formatCsvField storeCsvConfig "plain" = "plain" ∧
    '"' ∉ (taskGroupNewLine c3group).data := by
  refine ⟨?_, ?_, ?_⟩
  · apply String.ext
    rw [((formatCsvField_quoting.1 "a,b").1).mpr (by decide)]
    decide
  · exact (formatCsvField_quoting.1 "plain").2 (by decide)
  · exact formatCsvField_quoting.2 c3group (by decide) (by decide)
      (by intro c hc; cases hc) (by decide) (by decide)

/-- C9: the entity-level content round trip is unescapeCsvValue after
escapeCsvValue; on content free of actual newline and carriage-return
characters it replaces every literal backslash-n pair by an actual newline
(and backslash-r by a carriage return), so it is not the identity whenever
such a pair occurs; on content free of both literal pairs the two functions
are mutually inverse. -/
theorem content_escape_roundtrip :
    (∀ (e : TaskLogEntry) (fid : String) (idx : Option Nat) (e' : TaskLogEntry),
      csvRowToTaskLogEntry fid (taskLogEntryToCsvRow e) idx = .ok e' →
      e'.content = unescapeCsvValue (escapeCsvValue e.content)) ∧
    (∀ v : String, '\n' ∉ v.data → '\r' ∉ v.data →
      unescapeCsvValue (escapeCsvValue v) = ⟨unqR (unqN v.data)⟩ ∧
      (hasPair '\\' 'n' v.data = true →
        '\n' ∈ (unescapeCsvValue (escapeCsvValue v)).data) ∧
      ((hasPair '\\' 'n' v.data = true ∨ hasPair '\\' 'r' v.data = true) →
        unescapeCsvValue (escapeCsvValue v) ≠ v)) ∧
    (∀ v : String, hasPair '\\' 'n' v.data = false → hasPair '\\' 'r' v.data = false →
      unescapeCsvValue (escapeCsvValue v) = v) := by
  refine ⟨?_, ?_, ?_⟩
  · intro e fid idx e' h
    unfold csvRowToTaskLogEntry at h
    cases hv : validateTaskLogCsvRow (taskLogEntryToCsvRow e) idx with
    | error err => rw [hv] at h; cases h
    | ok u => rw [hv] at h; cases h; rfl
  · intro v hn hr
    have hbase : unescapeCsvValue (escapeCsvValue v) = ⟨unqR (unqN v.data)⟩ := by
      show (⟨unqR (unqN (unqQ (escR (escN (escQ v.data)))))⟩ : String) = _
      rw [unqQ_escRNQ, show escN v.data = v.data from replaceChar_eq_self hn,
        show escR v.data = v.data from replaceChar_eq_self hr]
    have hlen : (hasPair '\\' 'n' v.data = true ∨ hasPair '\\' 'r' v.data = true) →
        (unqR (unqN v.data)).length < v.data.length := by
      intro hp
      simp only [unqN, unqR]
      rcases hp with hp | hp
      · have h1 := replacePair_length_lt (a := '\\') (b := 'n') (r := ['\n'])
          (by decide) v.data hp
        have h2 := replacePair_length_le (a := '\\') (b := 'r') (r := ['\r'])
          (by decide) (replacePair '\\' 'n' ['\n'] v.data)
        omega
      · have hpres := @hasPair_replacePair_preserved '\\' 'n' 'r'
          ['\n'] (by decide) (by decide) (by decide) v.data hp
        have h1 := replacePair_length_lt (a := '\\') (b := 'r') (r := ['\r'])
          (by decide) _ hpres
        have h2 := replacePair_length_le (a := '\\') (b := 'n') (r := ['\n'])
          (by decide) v.data
        omega
    refine ⟨hbase, ?_, ?_⟩
    · intro hp
      rw [hbase]
      show '\n' ∈ replacePair '\\' 'r' ['\r'] (replacePair '\\' 'n' ['\n'] v.data)
      apply mem_replacePair_of_ne (by decide) (by decide)
      exact hasPair_replacePair_mem (by decide) _ hp
    · intro hp heq
      rw [hbase] at heq
      have hdata : unqR (unqN v.data) = v.data := congrArg String.data heq
      have hlt := hlen hp
      rw [hdata] at hlt
      exact lt_irrefl _ hlt
  · intro v hpn hpr
    show (⟨unqR (unqN (unqQ (escR (escN (escQ v.data)))))⟩ : String) = v
    rw [unqQ_escRNQ, unescEsc v.data hpn hpr]

theorem content_escape_roundtrip_witness :
    unescapeCsvValue (escapeCsvValue "a\\nb") ≠ "a\\nb" ∧
    unescapeCsvValue (escapeCsvValue "plain \"text\"") = "plain \"text\"" := by
  constructor
  · exact (content_escape_roundtrip.2.1 "a\\nb" (by decide) (by decide)).2.2
      (Or.inl (by decide))
  · exact content_escape_roundtrip.2.2 "plain \"text\"" (by decide) (by decide)

-- === Ordering facts for the generated ORDER BY clause ===

theorem rowOrderDesc_trans (a b c : TaskLogCsvRow)
    (h₁ : rowOrderDesc a b = true) (h₂ : rowOrderDesc b c = true) :
    rowOrderDesc a c = true := by
  simp only [rowOrderDesc, decide_eq_true_iff] at h₁ h₂ ⊢
  rcases h₁ with h₁ | ⟨h₁e, h₁s⟩ <;> rcases h₂ with h₂ | ⟨h₂e, h₂s⟩
  · exact Or.inl (h₂.trans h₁)
  · exact Or.inl (lt_of_eq_of_lt h₂e h₁)
  · exact Or.inl (lt_of_lt_of_eq h₂ h₁e)
  · exact Or.inr ⟨h₂e.trans h₁e, le_trans h₂s h₁s⟩

theorem rowOrderDesc_total (a b : TaskLogCsvRow) :
    (rowOrderDesc a b || rowOrderDesc b a) = true := by
  simp only [rowOrderDesc, Bool.or_eq_true, decide_eq_true_iff]
  rcases lt_trichotomy a.date b.date with h | h | h
  · exact Or.inr (Or.inl h)
  · rcases le_total a.start_time b.start_time with hs | hs
    · exact Or.inr (Or.inr ⟨h, hs⟩)
    · exact Or.inl (Or.inr ⟨h.symm, hs⟩)
  · exact Or.inl (Or.inl h)

theorem any_map_general {α β : Type} (f : α → β) (p : β → Bool) :
    ∀ (l : List α), (l.map f).any p = l.any (fun a => p (f a))
  | [] => rfl
  | a :: t => by simp [List.any_cons, any_map_general f p t]

theorem mergeSort_rowOrder_pairwise (l : List TaskLogCsvRow) :
    (l.mergeSort rowOrderDesc).Pairwise (fun a b =>
      b.date < a.date ∨ (b.date = a.date ∧ b.start_time ≤ a.start_time)) := by
  have hs := @List.sorted_mergeSort _ rowOrderDesc rowOrderDesc_trans
    rowOrderDesc_total l
  refine hs.imp (fun hab => ?_)
  simpa only [rowOrderDesc, decide_eq_true_iff] using hab

/-- C5: the filtered read returns exactly the stored rows whose date lies in
the inclusive range, as a permutation-free characterization (membership and
permutation with the filter) together with the ordering: date descending,
then start time descending. -/
theorem getTaskLogs_dateRange (f : DateRangeFilter) (rows : List TaskLogCsvRow) :
    (∀ r, r ∈ getTaskLogsQuery f rows ↔
      (r ∈ rows ∧ f.startDate ≤ r.date ∧ r.date ≤ f.endDate)) ∧
    (getTaskLogsQuery f rows).Perm
      (rows.filter (fun r => decide (f.startDate ≤ r.date ∧ r.date ≤ f.endDate))) ∧
    (getTaskLogsQuery f rows).Pairwise (fun a b =>
      b.date < a.date ∨ (b.date = a.date ∧ b.start_time ≤ a.start_time)) := by
  have hperm : (getTaskLogsQuery f rows).Perm
      (rows.filter (fun r => decide (f.startDate ≤ r.date ∧ r.date ≤ f.endDate))) := by
    simp only [getTaskLogsQuery]
    exact List.mergeSort_perm _ _
  refine ⟨?_, hperm, ?_⟩
  · intro r
    rw [hperm.mem_iff, List.mem_filter, decide_eq_true_iff]
  · simp only [getTaskLogsQuery]
    exact mergeSort_rowOrder_pairwise _

/-- C6 as stated is false: getFilteredTaskLogs interpolates the requested
field name verbatim as the SQL column, so an explicit `taskGroupName` field
references a column the task_logs view does not have and the query fails,
while searchTaskLogs maps the same request to the real column and succeeds. -/
def c6row : TaskLogCsvRow :=
  ⟨"2024-01-05", "09:00", "09:30", "30", "g", "xfooy", "c", "t", "t"⟩

theorem search_fields_disjunction_counterexample :
    likeContains false "foo" c6row.task_group_name = true ∧
    getFilteredSearchModel ⟨"foo", some [.taskGroupName], none⟩ [c6row] =
      .error ⟨"SQL query failed: referenced column not found", .unknown⟩ ∧
    searchTaskLogsModel ⟨"foo", some [.taskGroupName], none⟩ [c6row] ≠
      getFilteredSearchModel ⟨"foo", some [.taskGroupName], none⟩ [c6row] := by
  have hgf : getFilteredSearchModel ⟨"foo", some [.taskGroupName], none⟩ [c6row] =
      .error ⟨"SQL query failed: referenced column not found", .unknown⟩ := by
    simp only [getFilteredSearchModel, runSearchQuery, getFilteredSearchColumns]
    rw [if_neg (by decide)]
  refine ⟨by decide, hgf, ?_⟩
  intro heq
  rw [hgf] at heq
  simp only [searchTaskLogsModel, runSearchQuery, searchTaskLogsColumns] at heq
  rw [if_pos (by decide)] at heq
  exact Except.noConfusion heq

/-- C6 amended: searchTaskLogs returns the rows whose requested fields
(defaulting to content plus taskGroupName when fields is omitted) match the
query disjunctively, case-insensitively unless caseSensitive is true, in
date/start-time descending order; the search component of
getFilteredTaskLogs agrees when fields is omitted, but any explicit field
list containing taskGroupName is interpolated verbatim as a nonexistent
column and the query fails with an error instead. -/
theorem search_fields_disjunction :
    (∀ (sf : SearchFilter) (rows : List TaskLogCsvRow),
      ∃ res, searchTaskLogsModel sf rows = .ok res ∧
        (∀ r, r ∈ res ↔ r ∈ rows ∧
          (sf.fields.getD [.content, .taskGroupName]).any (fun fl =>
            likeContains (sf.caseSensitive.getD false) sf.query
              (match fl with
               | .content => r.content
               | .taskGroupName => r.task_group_name)) = true) ∧
        res.Pairwise (fun a b =>
          b.date < a.date ∨ (b.date = a.date ∧ b.start_time ≤ a.start_time))) ∧
    (∀ (sf : SearchFilter) (rows : List TaskLogCsvRow), sf.fields = none →
      getFilteredSearchModel sf rows = searchTaskLogsModel sf rows) ∧
    (∀ (sf : SearchFilter) (fs : List SearchField) (rows : List TaskLogCsvRow),
      sf.fields = some fs → SearchField.taskGroupName ∈ fs →
      getFilteredSearchModel sf rows =
        .error ⟨"SQL query failed: referenced column not found", .unknown⟩) := by
  refine ⟨?_, ?_, ?_⟩
  · intro sf rows
    have hcols : (searchTaskLogsColumns sf).all isTaskLogColumn = true := by
      rw [List.all_eq_true]
      intro c hc
      simp only [searchTaskLogsColumns, List.mem_map] at hc
      obtain ⟨fl, _, hfl⟩ := hc
      cases fl <;> (rw [← hfl]; decide)
    have hok : searchTaskLogsModel sf rows = .ok
        ((rows.filter (fun r => (searchTaskLogsColumns sf).any (fun c =>
          likeContains (sf.caseSensitive.getD false) sf.query
            ((taskLogColumn r c).getD "")))).mergeSort rowOrderDesc) := by
      simp only [searchTaskLogsModel, runSearchQuery]
      rw [if_pos hcols]
    refine ⟨_, hok, ?_, mergeSort_rowOrder_pairwise _⟩
    intro r
    have hanys : (searchTaskLogsColumns sf).any (fun c =>
        likeContains (sf.caseSensitive.getD false) sf.query
          ((taskLogColumn r c).getD "")) =
        (sf.fields.getD [.content, .taskGroupName]).any (fun fl =>
          likeContains (sf.caseSensitive.getD false) sf.query
            (match fl with
             | .content => r.content
             | .taskGroupName => r.task_group_name)) := by
      simp only [searchTaskLogsColumns, any_map_general]
      congr 1
      funext fl
      cases fl <;> rfl
    rw [(List.mergeSort_perm _ _).mem_iff, List.mem_filter, hanys]
  · intro sf rows hf
    have hc : getFilteredSearchColumns sf = searchTaskLogsColumns sf := by
      simp [getFilteredSearchColumns, searchTaskLogsColumns, hf]
    simp [getFilteredSearchModel, searchTaskLogsModel, hc]
  · intro sf fs rows hf hmem
    have hcol : (getFilteredSearchColumns sf).all isTaskLogColumn = false := by
      cases hall : (getFilteredSearchColumns sf).all isTaskLogColumn with
      | false => rfl
      | true =>
        have hmm : "taskGroupName" ∈ getFilteredSearchColumns sf := by
          simp only [getFilteredSearchColumns, hf]
          exact List.mem_map_of_mem _ hmem
        have := List.all_eq_true.mp hall "taskGroupName" hmm
        exact absurd this (by decide)
    simp only [getFilteredSearchModel, runSearchQuery]
    rw [if_neg (by rw [hcol]; exact Bool.false_ne_true)]

theorem search_fields_disjunction_witness :
    getFilteredSearchModel ⟨"foo", some [.taskGroupName], none⟩ [] =
      .error ⟨"SQL query failed: referenced column not found", .unknown⟩ ∧
    (∃ res, searchTaskLogsModel ⟨"foo", none, none⟩ [] = .ok res) ∧
    getFilteredSearchModel ⟨"foo", none, none⟩ [] =
      searchTaskLogsModel ⟨"foo", none, none⟩ [] := by
  refine ⟨search_fields_disjunction.2.2 _ [.taskGroupName] [] rfl
    (List.mem_cons_self _ _), ?_, search_fields_disjunction.2.1 _ [] rfl⟩
  obtain ⟨res, hok, _, _⟩ := search_fields_disjunction.1 ⟨"foo", none, none⟩ []
  exact ⟨res, hok⟩

-- === Split, join and trim facts for the task-group file round trip ===

theorem splitOnChar_not_mem {sep : Char} :
    ∀ {a : List Char}, sep ∉ a → splitOnChar sep a = [a]
  | [], _ => rfl
  | c :: t, h => by
    have hc : c ≠ sep := fun hc => h (hc ▸ List.mem_cons_self _ _)
    have ht := splitOnChar_not_mem (fun hm => h (List.mem_cons_of_mem _ hm))
    simp only [splitOnChar, if_neg hc, ht]

theorem splitOnChar_append {sep : Char} :
    ∀ {a : List Char} (b : List Char), sep ∉ a →
      splitOnChar sep (a ++ sep :: b) = a :: splitOnChar sep b
  | [], b, _ => by simp [splitOnChar]
  | c :: t, b, h => by
    have hc : c ≠ sep := fun hc => h (hc ▸ List.mem_cons_self _ _)
    have ht := splitOnChar_append b (fun hm => h (List.mem_cons_of_mem _ hm)) (a := t)
    simp only [List.cons_append, splitOnChar, if_neg hc, List.append_eq, ht]

theorem splitOnChar_ne_nil {sep : Char} : ∀ (l : List Char), splitOnChar sep l ≠ []
  | [] => by simp [splitOnChar]
  | c :: t => by
    by_cases hc : c = sep
    · simp [splitOnChar, hc]
    · simp only [splitOnChar, if_neg hc]
      cases heq : splitOnChar sep t with
      | nil => simp
      | cons f r => simp

theorem mem_splitOnChar_not_mem {sep : Char} :
    ∀ {l p : List Char}, p ∈ splitOnChar sep l → sep ∉ p
  | [], p, hp => by
    simp only [splitOnChar, List.mem_singleton] at hp
    simp [hp]
  | c :: t, p, hp => by
    by_cases hc : c = sep
    · simp only [splitOnChar, if_pos hc] at hp
      rcases List.mem_cons.1 hp with h1 | h1
      · simp [h1]
      · exact mem_splitOnChar_not_mem h1
    · simp only [splitOnChar, if_neg hc] at hp
      cases heq : splitOnChar sep t with
      | nil => exact absurd heq (splitOnChar_ne_nil t)
      | cons f r =>
        rw [heq] at hp
        rcases List.mem_cons.1 hp with h1 | h1
        · subst h1
          intro hm
          rcases List.mem_cons.1 hm with h2 | h2
          · exact hc h2.symm
          · exact mem_splitOnChar_not_mem (heq.symm ▸ List.mem_cons_self f r) h2
        · exact mem_splitOnChar_not_mem (heq.symm ▸ List.mem_cons_of_mem f h1)

theorem splitStr_joinSep_nl :
    ∀ (ls : List String), ls ≠ [] → (∀ s ∈ ls, '\n' ∉ s.data) →
      splitStr '\n' (joinSep "\n" ls ++ "\n") = ls ++ [""]
  | [], hne, _ => absurd rfl hne
  | [s], _, h => by
    have hs : '\n' ∉ s.data := h s (List.mem_cons_self _ _)
    simp only [joinSep, splitStr]
    rw [String.data_append, show ("\n" : String).data = ['\n'] from rfl,
      show s.data ++ ['\n'] = s.data ++ '\n' :: ([] : List Char) from rfl,
      splitOnChar_append _ hs]
    rfl
  | s :: b :: t, _, h => by
    have hs : '\n' ∉ s.data := h s (List.mem_cons_self _ _)
    have ih := splitStr_joinSep_nl (b :: t) (by simp)
      (fun x hx => h x (List.mem_cons_of_mem _ hx))
    show splitStr '\n' ((s ++ "\n" ++ joinSep "\n" (b :: t)) ++ "\n") = _
    simp only [splitStr]
    rw [show ((s ++ "\n" ++ joinSep "\n" (b :: t)) ++ "\n").data
        = s.data ++ '\n' :: (joinSep "\n" (b :: t) ++ "\n").data from by
      simp [String.data_append], splitOnChar_append _ hs]
    show (⟨s.data⟩ : String) :: splitStr '\n' (joinSep "\n" (b :: t) ++ "\n") = _
    rw [ih]
    rfl

theorem trimStr_ne_empty {s : String} {c : Char} (hc : c ∈ s.data)
    (hw : c.isWhitespace = false) : trimStr s ≠ "" := by
  intro h
  have hdata : trimChars s.data = [] := congrArg String.data h
  unfold trimChars at hdata
  rw [List.reverse_eq_nil_iff, List.dropWhile_eq_nil_iff] at hdata
  have hcd : c ∈ List.dropWhile Char.isWhitespace s.data := by
    have hsplit := List.takeWhile_append_dropWhile (p := Char.isWhitespace) (l := s.data)
    rcases List.mem_append.1 (by rw [hsplit]; exact hc) with h1 | h1
    · have := List.mem_takeWhile_imp h1
      rw [hw] at this
      exact absurd this Bool.false_ne_true
    · exact h1
  have := hdata c (List.mem_reverse.mpr hcd)
  rw [hw] at this
  exact Bool.false_ne_true this

theorem data_append_comma (x y : String) :
    (x ++ "," ++ y).data = x.data ++ ',' :: y.data := by
  rw [String.data_append, String.data_append, List.append_assoc]
  rfl

theorem splitStr_six (a b c d e f : String)
    (ha : ',' ∉ a.data) (hb : ',' ∉ b.data) (hc : ',' ∉ c.data)
    (hd : ',' ∉ d.data) (he : ',' ∉ e.data) (hf : ',' ∉ f.data) :
    splitStr ',' (a ++ "," ++ b ++ "," ++ c ++ "," ++ d ++ "," ++ e ++ "," ++ f) =
      [a, b, c, d, e, f] := by
  simp only [splitStr, data_append_comma, List.append_assoc, List.cons_append]
  rw [splitOnChar_append _ ha, splitOnChar_append _ hb, splitOnChar_append _ hc,
    splitOnChar_append _ hd, splitOnChar_append _ he, splitOnChar_not_mem hf]
  rfl

/-- Entity-level round trip through the task-group row conversions, for a
group whose name is free of literal backslash-n and backslash-r pairs and
whose color is not the empty string. -/
theorem group_roundtrip (g : TaskGroup)
    (hpn : hasPair '\\' 'n' g.name.data = false)
    (hpr : hasPair '\\' 'r' g.name.data = false)
    (hcolor : g.color ≠ some "") :
    csvRowToTaskGroup (taskGroupToCsvRow g) = g := by
  have hname : unescapeCsvValue (escapeCsvValue g.name) = g.name := by
    show (⟨unqR (unqN (unqQ (escR (escN (escQ g.name.data)))))⟩ : String) = _
    rw [unqQ_escRNQ, unescEsc g.name.data hpn hpr]
  rcases g with ⟨id, name, color, ca, ua, act⟩
  rcases color with _ | c
  · cases act <;> simp [csvRowToTaskGroup, taskGroupToCsvRow, hname]
  · have hcne : c ≠ "" := fun h => hcolor (by rw [h])
    cases act <;> simp [csvRowToTaskGroup, taskGroupToCsvRow, hname, hcne]

/-- C8 as stated is false on its positive half: a group whose name contains
no comma at all, but holds the two-character literal sequence backslash-n,
is read back with that sequence turned into an actual newline, so the fields
are not intact. -/
def c8group : TaskGroup := ⟨"g2", "a\\nb", none, "t1", "t2", true⟩

theorem saveTaskGroup_roundtrip_counterexample :
    (',' ∉ c8group.name.data) ∧ c8group.color = none ∧
    getTaskGroupsFromContent
        ((saveTaskGroupStore initialStoreState c8group).1.taskGroupsCsv) =
      [⟨"g2", "a\nb", none, "t1", "t2", true⟩] ∧
    "a\nb" ≠ c8group.name := by decide

/-- The comma-in-name truncation example of C8's second half. -/
def c8commaGroup : TaskGroup :=
  ⟨"g1", "a,b", none, "2024-01-01T00:00:00Z", "2024-01-02T00:00:00Z", true⟩

/-- C8 amended: saveTaskGroup writes each row by joining the six stringified
fields with commas and no quoting, and getTaskGroups splits each data line
on every comma with no quote handling; consequently a group whose fields are
comma-free, whose name is additionally free of the literal backslash-n and
backslash-r escape sequences, and whose remaining raw fields contain no
newline, is appended and read back intact — while a group whose name
contains a comma is read back with the name truncated at the first comma and
the following fields shifted, as the concrete example shows. -/
theorem saveTaskGroup_unquoted_roundtrip
    (st : StoreState) (g : TaskGroup) (header : String) (dataLines : List String)
    (hL : (splitStr '\n' st.taskGroupsCsv).filter (fun l => trimStr l ≠ "") =
      header :: dataLines)
    (hfresh : ∀ line ∈ dataLines, (splitStr ',' line).getD 0 "" ≠ g.id)
    (hid : ',' ∉ g.id.data ∧ '\n' ∉ g.id.data)
    (hname : ',' ∉ g.name.data ∧ hasPair '\\' 'n' g.name.data = false ∧
      hasPair '\\' 'r' g.name.data = false)
    (hcolor : ∀ c, g.color = some c → (c ≠ "" ∧ ',' ∉ c.data ∧ '\n' ∉ c.data))
    (hca : ',' ∉ g.createdAt.data ∧ '\n' ∉ g.createdAt.data)
    (hua : ',' ∉ g.updatedAt.data ∧ '\n' ∉ g.updatedAt.data) :
    ((saveTaskGroupStore st g).2 = none ∧
      getTaskGroupsFromContent ((saveTaskGroupStore st g).1.taskGroupsCsv) =
        getTaskGroupsFromContent st.taskGroupsCsv ++ [g]) ∧
    getTaskGroupsFromContent
        ((saveTaskGroupStore initialStoreState c8commaGroup).1.taskGroupsCsv) =
      [⟨"g1", "a", some "b", "", "2024-01-01T00:00:00Z", false⟩] := by
  have hcolorStr : (match g.color with | some c => c | none => "") ≠ "" → True := fun _ => trivial
  have hcn : ',' ∉ (match g.color with | some c => c | none => "").data := by
    cases hcg : g.color with
    | none => simp
    | some c => exact (hcolor c hcg).2.1
  have hcnl : '\n' ∉ (match g.color with | some c => c | none => "").data := by
    cases hcg : g.color with
    | none => simp
    | some c => exact (hcolor c hcg).2.2
  have hactc : ',' ∉ (if g.isActive then "true" else "false").data := by
    cases g.isActive <;> decide
  have hactnl : '\n' ∉ (if g.isActive then "true" else "false").data := by
    cases g.isActive <;> decide
  have hacte : 'e' ∈ (if g.isActive then "true" else "false").data := by
    cases g.isActive <;> decide
  have hcomnl : '\n' ∉ ("," : String).data := by decide
  -- The written line contains no newline.
  have hln : '\n' ∉ (taskGroupNewLine g).data := by
    intro hmem
    have h3 : '\n' ∉ (escapeCsvValue g.name).data := escape_no_newline _
    have h4 := hid.2
    have h5 := hca.2
    have h6 := hua.2
    simp only [taskGroupNewLine, taskGroupToCsvRow, String.data_append,
      List.mem_append] at hmem
    tauto
  -- The written line survives the nonempty-trim filter.
  have htrim : trimStr (taskGroupNewLine g) ≠ "" := by
    refine trimStr_ne_empty (c := 'e') ?_ (by decide)
    simp only [taskGroupNewLine, taskGroupToCsvRow, String.data_append, List.mem_append]
    tauto
  -- Facts about the existing lines.
  have hmemL : ∀ s ∈ header :: dataLines,
      s ∈ (splitStr '\n' st.taskGroupsCsv).filter (fun l => trimStr l ≠ "") := by
    rw [hL]; exact fun s hs => hs
  have hsplit_nl : ∀ s ∈ splitStr '\n' st.taskGroupsCsv, '\n' ∉ s.data := by
    intro s hs
    simp only [splitStr, List.mem_map] at hs
    obtain ⟨p, hp, rfl⟩ := hs
    exact mem_splitOnChar_not_mem hp
  have hold_nl : ∀ s ∈ header :: dataLines, '\n' ∉ s.data :=
    fun s hs => hsplit_nl s (List.mem_filter.1 (hmemL s hs)).1
  have hold_trim : ∀ s ∈ header :: dataLines, trimStr s ≠ "" := by
    intro s hs
    have := (List.mem_filter.1 (hmemL s hs)).2
    exact of_decide_eq_true this
  -- Unfold the save.
  have hsave : saveTaskGroupStore st g =
      (⟨st.taskLogsCsv,
        joinSep "\n" (header :: (dataLines ++ [taskGroupNewLine g])) ++ "\n"⟩, none) := by
    simp only [saveTaskGroupStore, hL, List.getD_cons_zero, List.drop_succ_cons,
      List.drop_zero]
    rw [List.findIdx_eq_length.mpr (fun line hline => by simpa using hfresh line hline),
      if_neg (lt_irrefl _)]
  -- Split and filter of the rewritten file.
  have hpieces : ∀ s ∈ header :: (dataLines ++ [taskGroupNewLine g]), '\n' ∉ s.data := by
    intro s hs
    rcases List.mem_cons.1 hs with h | h
    · exact h ▸ hold_nl header (List.mem_cons_self _ _)
    · rcases List.mem_append.1 h with h | h
      · exact hold_nl s (List.mem_cons_of_mem _ h)
      · rw [List.mem_singleton.1 h]; exact hln
  have hsplit := splitStr_joinSep_nl (header :: (dataLines ++ [taskGroupNewLine g]))
    (by simp) hpieces
  have hfilter : ((header :: (dataLines ++ [taskGroupNewLine g])) ++ [""]).filter
      (fun l => trimStr l ≠ "") = header :: (dataLines ++ [taskGroupNewLine g]) := by
    rw [List.filter_append]
    rw [List.filter_eq_self.mpr ?_, show List.filter (fun l => decide (trimStr l ≠ "")) [""]
        = [] from rfl, List.append_nil]
    intro s hs
    apply decide_eq_true
    rcases List.mem_cons.1 hs with h | h
    · exact h ▸ hold_trim header (List.mem_cons_self _ _)
    · rcases List.mem_append.1 h with h | h
      · exact hold_trim s (List.mem_cons_of_mem _ h)
      · rw [List.mem_singleton.1 h]; exact htrim
  -- Parse of the appended line.
  have hparse : splitStr ',' (taskGroupNewLine g) =
      [(taskGroupToCsvRow g).id, (taskGroupToCsvRow g).name, (taskGroupToCsvRow g).color,
       (taskGroupToCsvRow g).created_at, (taskGroupToCsvRow g).updated_at,
       (taskGroupToCsvRow g).is_active] := by
    refine splitStr_six _ _ _ _ _ _ hid.1 (escape_keeps_no_comma hname.1) hcn hca.1 hua.1 hactc
  refine ⟨⟨by rw [hsave], ?_⟩, by decide⟩
  rw [hsave]
  simp only [getTaskGroupsFromContent]
  rw [hsplit, hfilter, hL]
  simp only [List.drop_one, List.tail_cons, List.map_append, List.map_cons, List.map_nil]
  congr 1
  rw [hparse]
  simp only [List.getD_cons_zero, List.getD_cons_succ]
  rw [show (⟨(taskGroupToCsvRow g).id, (taskGroupToCsvRow g).name,
      (taskGroupToCsvRow g).color, (taskGroupToCsvRow g).created_at,
      (taskGroupToCsvRow g).updated_at, (taskGroupToCsvRow g).is_active⟩ : TaskGroupCsvRow)
      = taskGroupToCsvRow g from rfl]
  rw [group_roundtrip g hname.2.1 hname.2.2
    (fun h => by
      obtain ⟨hne, _, _⟩ := hcolor "" h
      exact hne rfl)]

theorem saveTaskGroup_unquoted_roundtrip_witness :
    getTaskGroupsFromContent
        ((saveTaskGroupStore initialStoreState
          ⟨"g9", "Proof work", some "blue", "2024-03-01T00:00:00Z",
           "2024-03-01T00:00:00Z", true⟩).1.taskGroupsCsv) =
      getTaskGroupsFromContent initialStoreState.taskGroupsCsv ++
        [⟨"g9", "Proof work", some "blue", "2024-03-01T00:00:00Z",
          "2024-03-01T00:00:00Z", true⟩] := by
  have h := saveTaskGroup_unquoted_roundtrip initialStoreState
    ⟨"g9", "Proof work", some "blue", "2024-03-01T00:00:00Z",
     "2024-03-01T00:00:00Z", true⟩ taskGroupsHeader []
    (by rfl)
    (by intro line hline; cases hline)
    (by decide) (by decide)
    (by intro c hc; cases hc; exact ⟨by decide, by decide, by decide⟩)
    (by decide) (by decide)
  exact h.1.2

end DriftLogger
